import Mathlib

/-!
Verification development for the `IframeBridge` class
(`src/IframeBridge.ts`, the class referenced by the specification).

The development shallowly embeds the parts of the implementation that the
specification talks about:

* the default payload codec `enCodeMessage` / `deCodeMessage`, together with
  executable models of the platform primitives it calls
  (`TextEncoder.encode` / `TextDecoder.decode` as UTF-8, `btoa` / `atob` as
  base64, `JSON.stringify` / `JSON.parse` over a JSON value model);
* the envelope builder `createMessage`, `addMessagePath`, and the
  send / receive / register / destroy state machine of a bridge instance,
  modelled as explicit state passing over a `World` record that also logs
  the observable effects (messages posted to windows, subscriber
  invocations, warnings).

JavaScript values are modelled by the inductive `JsValue`: strings are
sequences of unicode scalar values (`List Char`), numbers are integers,
objects are ordered association lists (JS insertion order).
-/

set_option maxHeartbeats 1000000

/-- Model of a JavaScript/JSON value.  `undef` is JS `undefined`.
Objects are ordered association lists, mirroring JS property order. -/
inductive JsValue where
  | undef : JsValue
  | null : JsValue
  | bool (b : Bool) : JsValue
  | num (n : Int) : JsValue
  | str (s : List Char) : JsValue
  | arr (elems : List JsValue) : JsValue
  | obj (fields : List (List Char × JsValue)) : JsValue

/-- Structural boolean equality on `JsValue` (the derive handler does not
support this nested inductive). -/
def JsValue.beq : JsValue → JsValue → Bool
  | .undef, .undef => true
  | .null, .null => true
  | .bool a, .bool b => a = b
  | .num a, .num b => a = b
  | .str a, .str b => a = b
  | .arr a, .arr b => beqList a b
  | .obj a, .obj b => beqFields a b
  | _, _ => false
where
  beqList : List JsValue → List JsValue → Bool
    | [], [] => true
    | a :: as, b :: bs => beq a b && beqList as bs
    | _, _ => false
  beqFields : List (List Char × JsValue) → List (List Char × JsValue) → Bool
    | [], [] => true
    | (k, a) :: as, (l, b) :: bs => k = l && beq a b && beqFields as bs
    | _, _ => false

-- ---------------------------------------------------------------------------
-- UTF-8: model of `TextEncoder().encode` and `TextDecoder().decode`
-- ---------------------------------------------------------------------------

/-- UTF-8 encoding of one unicode scalar value (`TextEncoder` on one char). -/
def utf8EncodeChar (c : Char) : List Nat :=
  let n := c.toNat
  if n < 0x80 then [n]
  else if n < 0x800 then [0xC0 + n / 64, 0x80 + n % 64]
  else if n < 0x10000 then
    [0xE0 + n / 4096, 0x80 + (n / 64) % 64, 0x80 + n % 64]
  else
    [0xF0 + n / 262144, 0x80 + (n / 4096) % 64, 0x80 + (n / 64) % 64, 0x80 + n % 64]

/-- UTF-8 encoding of a string as a byte sequence (`TextEncoder().encode`). -/
def utf8Encode : List Char → List Nat
  | [] => []
  | c :: cs => utf8EncodeChar c ++ utf8Encode cs

/-- The U+FFFD replacement character emitted by `TextDecoder` on errors. -/
def replacementChar : Char := Char.ofNat 0xFFFD

/-- One decoding step of `TextDecoder().decode` (non-fatal mode): reads the
lead byte, consumes its continuation bytes, and replaces ill-formed input
with U+FFFD.  The fuel decreases once per produced character. -/
def utf8DecodeAux : Nat → List Nat → List Char
  | 0, _ => []
  | _ + 1, [] => []
  | f + 1, b :: bs =>
    if b < 0x80 then Char.ofNat b :: utf8DecodeAux f bs
    else if b < 0xC0 then replacementChar :: utf8DecodeAux f bs
    else if b < 0xE0 then
      match bs with
      | b2 :: bs2 =>
        if 0x80 ≤ b2 ∧ b2 < 0xC0 then
          let cp := (b - 0xC0) * 64 + (b2 - 0x80)
          if 0x80 ≤ cp then Char.ofNat cp :: utf8DecodeAux f bs2
          else replacementChar :: utf8DecodeAux f bs2
        else replacementChar :: utf8DecodeAux f bs
      | [] => replacementChar :: utf8DecodeAux f []
    else if b < 0xF0 then
      match bs with
      | b2 :: b3 :: bs3 =>
        if (0x80 ≤ b2 ∧ b2 < 0xC0) ∧ (0x80 ≤ b3 ∧ b3 < 0xC0) then
          let cp := (b - 0xE0) * 4096 + (b2 - 0x80) * 64 + (b3 - 0x80)
          if 0x800 ≤ cp ∧ ¬(0xD800 ≤ cp ∧ cp ≤ 0xDFFF) then
            Char.ofNat cp :: utf8DecodeAux f bs3
          else replacementChar :: utf8DecodeAux f bs3
        else replacementChar :: utf8DecodeAux f bs
      | _ => replacementChar :: utf8DecodeAux f bs
    else if b < 0xF5 then
      match bs with
      | b2 :: b3 :: b4 :: bs4 =>
        if (0x80 ≤ b2 ∧ b2 < 0xC0) ∧ (0x80 ≤ b3 ∧ b3 < 0xC0) ∧ (0x80 ≤ b4 ∧ b4 < 0xC0) then
          let cp := (b - 0xF0) * 262144 + (b2 - 0x80) * 4096 + (b3 - 0x80) * 64 + (b4 - 0x80)
          if 0x10000 ≤ cp ∧ cp < 0x110000 then
            Char.ofNat cp :: utf8DecodeAux f bs4
          else replacementChar :: utf8DecodeAux f bs4
        else replacementChar :: utf8DecodeAux f bs
      | _ => replacementChar :: utf8DecodeAux f bs
    else replacementChar :: utf8DecodeAux f bs

/-- Model of `TextDecoder().decode` over a byte sequence. -/
def utf8Decode (bs : List Nat) : List Char :=
  utf8DecodeAux bs.length bs

theorem char_toNat_lt (c : Char) : c.toNat < 0x110000 := by
  rcases c.valid with h | ⟨_, h2⟩
  · exact Nat.lt_trans h (by norm_num)
  · exact h2

theorem char_not_surrogate (c : Char) :
    c.toNat < 0xD800 ∨ 0xDFFF < c.toNat := by
  rcases c.valid with h | ⟨h1, _⟩
  · exact Or.inl h
  · exact Or.inr h1

/-- Decoding one encoded scalar value consumes exactly one unit of fuel and
returns the value. -/
theorem utf8DecodeAux_encodeChar (c : Char) (rest : List Nat) (f : Nat) :
    utf8DecodeAux (f + 1) (utf8EncodeChar c ++ rest) = c :: utf8DecodeAux f rest := by
  have hlt := char_toNat_lt c
  have hsur := char_not_surrogate c
  by_cases h1 : c.toNat < 0x80
  · simp only [utf8EncodeChar, if_pos h1, List.cons_append, List.nil_append,
      utf8DecodeAux]
    rw [Char.ofNat_toNat]
  · by_cases h2 : c.toNat < 0x800
    · simp only [utf8EncodeChar, if_neg h1, if_pos h2, List.cons_append, List.nil_append,
        utf8DecodeAux]
      rw [if_neg (by omega), if_neg (by omega), if_pos (by omega), if_pos (by omega),
        if_pos (by omega)]
      have : (0xC0 + c.toNat / 64 - 0xC0) * 64 + (0x80 + c.toNat % 64 - 0x80) = c.toNat := by
        omega
      rw [this, Char.ofNat_toNat]
    · by_cases h3 : c.toNat < 0x10000
      · simp only [utf8EncodeChar, if_neg h1, if_neg h2, if_pos h3, List.cons_append,
          List.nil_append, utf8DecodeAux]
        rw [if_neg (by omega), if_neg (by omega), if_neg (by omega), if_pos (by omega),
          if_pos (by constructor <;> omega)]
        have : (0xE0 + c.toNat / 4096 - 0xE0) * 4096 + (0x80 + c.toNat / 64 % 64 - 0x80) * 64 +
            (0x80 + c.toNat % 64 - 0x80) = c.toNat := by omega
        rw [this, if_pos (by omega), Char.ofNat_toNat]
      · simp only [utf8EncodeChar, if_neg h1, if_neg h2, if_neg h3, List.cons_append,
          List.nil_append, utf8DecodeAux]
        rw [if_neg (by omega), if_neg (by omega), if_neg (by omega), if_neg (by omega),
          if_pos (by omega),
          if_pos (by refine ⟨⟨by omega, by omega⟩, ⟨by omega, by omega⟩, by omega, by omega⟩)]
        have : (0xF0 + c.toNat / 262144 - 0xF0) * 262144 +
            (0x80 + c.toNat / 4096 % 64 - 0x80) * 4096 +
            (0x80 + c.toNat / 64 % 64 - 0x80) * 64 + (0x80 + c.toNat % 64 - 0x80) = c.toNat := by
          omega
        rw [this, if_pos (by omega), Char.ofNat_toNat]

/-- With enough fuel, decoding an encoded string returns the string. -/
theorem utf8DecodeAux_encode :
    ∀ (s : List Char) (f : Nat), s.length ≤ f → utf8DecodeAux f (utf8Encode s) = s
  | [], 0, _ => rfl
  | [], _ + 1, _ => rfl
  | c :: cs, f + 1, h => by
    simp only [utf8Encode]
    rw [utf8DecodeAux_encodeChar]
    rw [utf8DecodeAux_encode cs f (by simp only [List.length_cons] at h; omega)]

theorem utf8EncodeChar_length_pos (c : Char) : 0 < (utf8EncodeChar c).length := by
  unfold utf8EncodeChar
  by_cases h1 : c.toNat < 0x80
  · simp [h1]
  · by_cases h2 : c.toNat < 0x800
    · simp [h1, h2]
    · by_cases h3 : c.toNat < 0x10000 <;> simp [h1, h2, h3]

theorem length_le_utf8Encode_length : ∀ s : List Char, s.length ≤ (utf8Encode s).length
  | [] => Nat.le_refl 0
  | c :: cs => by
    simp only [utf8Encode, List.length_append, List.length_cons]
    have h1 := utf8EncodeChar_length_pos c
    have h2 := length_le_utf8Encode_length cs
    omega

/-- `TextDecoder` inverts `TextEncoder` on every string. -/
theorem utf8Decode_encode (s : List Char) : utf8Decode (utf8Encode s) = s :=
  utf8DecodeAux_encode s (utf8Encode s).length (length_le_utf8Encode_length s)

-- ---------------------------------------------------------------------------
-- Base64: model of `btoa` and `atob`
-- ---------------------------------------------------------------------------

/-- The base64 alphabet used by `btoa`. -/
def b64Alphabet : List Char :=
  "ABCDEFGHIJKLMNOPQRSTUVWXYZabcdefghijklmnopqrstuvwxyz0123456789+/".data

/-- The character for a 6-bit group. -/
def sixToChar (n : Nat) : Char := b64Alphabet.getD n 'A'

/-- The 6-bit value of a base64 character (`none` for a character outside
the alphabet, on which `atob` throws). -/
def charToSix (c : Char) : Option Nat :=
  List.findIdx? (fun a => a = c) b64Alphabet

/-- Model of `btoa` applied to a byte sequence (in the source the bytes of a
`Uint8Array` are turned into a binary string which `btoa` consumes). -/
def btoa : List Nat → List Char
  | [] => []
  | [b1] => [sixToChar (b1 / 4), sixToChar ((b1 % 4) * 16), '=', '=']
  | [b1, b2] =>
    [sixToChar (b1 / 4), sixToChar ((b1 % 4) * 16 + b2 / 16), sixToChar ((b2 % 16) * 4), '=']
  | b1 :: b2 :: b3 :: bs =>
    sixToChar (b1 / 4) :: sixToChar ((b1 % 4) * 16 + b2 / 16) ::
      sixToChar ((b2 % 16) * 4 + b3 / 64) :: sixToChar (b3 % 64) :: btoa bs

/-- Model of `atob`, returning the byte sequence, or `none` where the real
`atob` throws (bad length or characters outside the alphabet).  Padding is
required, as `btoa` always produces it. -/
def atob : List Char → Option (List Nat)
  | [] => some []
  | c1 :: c2 :: c3 :: c4 :: rest =>
    match charToSix c1, charToSix c2 with
    | some n1, some n2 =>
      if c3 = '=' then
        if c4 = '=' ∧ rest = [] then some [n1 * 4 + n2 / 16] else none
      else
        match charToSix c3 with
        | some n3 =>
          if c4 = '=' then
            if rest = [] then some [n1 * 4 + n2 / 16, (n2 % 16) * 16 + n3 / 4] else none
          else
            match charToSix c4, atob rest with
            | some n4, some bs =>
              some ([n1 * 4 + n2 / 16, (n2 % 16) * 16 + n3 / 4, (n3 % 4) * 64 + n4] ++ bs)
            | _, _ => none
        | none => none
    | _, _ => none
  | _ => none

theorem charToSix_sixToChar : ∀ n < 64, charToSix (sixToChar n) = some n := by decide

theorem sixToChar_ne_eq : ∀ n < 64, sixToChar n ≠ '=' := by decide

theorem sixToChar_ne_colon : ∀ n < 64, sixToChar n ≠ ':' := by decide

example (b1 : Nat) (hb1 : b1 < 256) : atob (btoa [b1]) = some [b1] := by
  have k1 := charToSix_sixToChar (b1 / 4) (by omega)
  have k2 := charToSix_sixToChar ((b1 % 4) * 16) (by omega)
  simp only [btoa, atob, k1, k2]
  simp only [if_pos rfl, and_self, ite_true, reduceIte]
  congr 2
  omega

example (b1 b2 : Nat) (hb1 : b1 < 256) (hb2 : b2 < 256) :
    atob (btoa [b1, b2]) = some [b1, b2] := by
  have k1 := charToSix_sixToChar (b1 / 4) (by omega)
  have k2 := charToSix_sixToChar ((b1 % 4) * 16 + b2 / 16) (by omega)
  have k3 := charToSix_sixToChar ((b2 % 16) * 4) (by omega)
  have ne3 : sixToChar ((b2 % 16) * 4) ≠ '=' := sixToChar_ne_eq _ (by omega)
  simp only [btoa, atob, k1, k2, k3, ne3, ite_false, if_neg ne3]
  simp
  constructor
  · omega
  · omega

theorem atob_btoa : ∀ bs : List Nat, (∀ b ∈ bs, b < 256) → atob (btoa bs) = some bs
  | [], _ => rfl
  | [b1], h => by
    have hb1 : b1 < 256 := h b1 (by simp)
    have k1 := charToSix_sixToChar (b1 / 4) (by omega)
    have k2 := charToSix_sixToChar ((b1 % 4) * 16) (by omega)
    simp only [btoa, atob, k1, k2]
    simp only [if_pos rfl, and_self, ite_true, reduceIte]
    congr 2
    omega
  | [b1, b2], h => by
    have hb1 : b1 < 256 := h b1 (by simp)
    have hb2 : b2 < 256 := h b2 (by simp)
    have k1 := charToSix_sixToChar (b1 / 4) (by omega)
    have k2 := charToSix_sixToChar ((b1 % 4) * 16 + b2 / 16) (by omega)
    have k3 := charToSix_sixToChar ((b2 % 16) * 4) (by omega)
    have ne3 : sixToChar ((b2 % 16) * 4) ≠ '=' := sixToChar_ne_eq _ (by omega)
    simp only [btoa, atob, k1, k2, k3, ne3, ite_false, if_neg ne3]
    simp
    constructor
    · omega
    · omega
  | b1 :: b2 :: b3 :: b4 :: bt, h => by
    have hb1 : b1 < 256 := h b1 (by simp)
    have hb2 : b2 < 256 := h b2 (by simp)
    have hb3 : b3 < 256 := h b3 (by simp)
    have hrest : ∀ b ∈ b4 :: bt, b < 256 := fun b hb => h b (by simp at hb ⊢; tauto)
    have ih := atob_btoa (b4 :: bt) hrest
    have k1 := charToSix_sixToChar (b1 / 4) (by omega)
    have k2 := charToSix_sixToChar ((b1 % 4) * 16 + b2 / 16) (by omega)
    have k3 := charToSix_sixToChar ((b2 % 16) * 4 + b3 / 64) (by omega)
    have k4 := charToSix_sixToChar (b3 % 64) (by omega)
    have ne3 : sixToChar ((b2 % 16) * 4 + b3 / 64) ≠ '=' := sixToChar_ne_eq _ (by omega)
    have ne4 : sixToChar (b3 % 64) ≠ '=' := sixToChar_ne_eq _ (by omega)
    show atob (sixToChar (b1 / 4) :: sixToChar ((b1 % 4) * 16 + b2 / 16) ::
      sixToChar ((b2 % 16) * 4 + b3 / 64) :: sixToChar (b3 % 64) :: btoa (b4 :: bt)) = _
    simp only [atob, k1, k2, k3, k4, if_neg ne3, if_neg ne4, ih]
    simp
    refine ⟨by omega, by omega, by omega⟩
  | [b1, b2, b3], h => by
    have hb1 : b1 < 256 := h b1 (by simp)
    have hb2 : b2 < 256 := h b2 (by simp)
    have hb3 : b3 < 256 := h b3 (by simp)
    have k1 := charToSix_sixToChar (b1 / 4) (by omega)
    have k2 := charToSix_sixToChar ((b1 % 4) * 16 + b2 / 16) (by omega)
    have k3 := charToSix_sixToChar ((b2 % 16) * 4 + b3 / 64) (by omega)
    have k4 := charToSix_sixToChar (b3 % 64) (by omega)
    have ne3 : sixToChar ((b2 % 16) * 4 + b3 / 64) ≠ '=' := sixToChar_ne_eq _ (by omega)
    have ne4 : sixToChar (b3 % 64) ≠ '=' := sixToChar_ne_eq _ (by omega)
    simp only [btoa, atob, k1, k2, k3, k4, if_neg ne3, if_neg ne4]
    simp
    refine ⟨by omega, by omega, by omega⟩

/-- No output of `btoa` contains a colon (needed because `deCodeMessage`
splits its input at the first colon). -/
theorem btoa_no_colon : ∀ bs : List Nat, (∀ b ∈ bs, b < 256) → ':' ∉ btoa bs
  | [], _ => by simp [btoa]
  | [b1], h => by
    have hb1 : b1 < 256 := h b1 (by simp)
    have n1 := sixToChar_ne_colon (b1 / 4) (by omega)
    have n2 := sixToChar_ne_colon ((b1 % 4) * 16) (by omega)
    intro hmem
    simp only [btoa, List.mem_cons, List.not_mem_nil, or_false] at hmem
    rcases hmem with e | e | e | e <;>
      first
        | exact n1 e.symm
        | exact n2 e.symm
        | exact absurd e (by decide)
  | [b1, b2], h => by
    have hb1 : b1 < 256 := h b1 (by simp)
    have hb2 : b2 < 256 := h b2 (by simp)
    have n1 := sixToChar_ne_colon (b1 / 4) (by omega)
    have n2 := sixToChar_ne_colon ((b1 % 4) * 16 + b2 / 16) (by omega)
    have n3 := sixToChar_ne_colon ((b2 % 16) * 4) (by omega)
    intro hmem
    simp only [btoa, List.mem_cons, List.not_mem_nil, or_false] at hmem
    rcases hmem with e | e | e | e <;>
      first
        | exact n1 e.symm
        | exact n2 e.symm
        | exact n3 e.symm
        | exact absurd e (by decide)
  | b1 :: b2 :: b3 :: bs, h => by
    have hb1 : b1 < 256 := h b1 (by simp)
    have hb2 : b2 < 256 := h b2 (by simp)
    have hb3 : b3 < 256 := h b3 (by simp)
    have hrest : ∀ b ∈ bs, b < 256 := fun b hb => h b (by simp [hb])
    have ih := btoa_no_colon bs hrest
    have n1 := sixToChar_ne_colon (b1 / 4) (by omega)
    have n2 := sixToChar_ne_colon ((b1 % 4) * 16 + b2 / 16) (by omega)
    have n3 := sixToChar_ne_colon ((b2 % 16) * 4 + b3 / 64) (by omega)
    have n4 := sixToChar_ne_colon (b3 % 64) (by omega)
    intro hmem
    rw [show btoa (b1 :: b2 :: b3 :: bs) = sixToChar (b1 / 4) ::
      sixToChar ((b1 % 4) * 16 + b2 / 16) :: sixToChar ((b2 % 16) * 4 + b3 / 64) ::
      sixToChar (b3 % 64) :: btoa bs from by
        cases bs with
        | nil => rfl
        | cons x xt => cases xt <;> rfl] at hmem
    simp only [List.mem_cons] at hmem
    rcases hmem with e | e | e | e | e <;>
      first
        | exact n1 e.symm
        | exact n2 e.symm
        | exact n3 e.symm
        | exact n4 e.symm
        | exact ih e

-- ---------------------------------------------------------------------------
-- JSON: model of `JSON.stringify` and `JSON.parse`
-- ---------------------------------------------------------------------------

/-- The character of a decimal digit. -/
def digitChar (d : Nat) : Char := "0123456789".data.getD d '0'

/-- The character of a hexadecimal digit (lowercase, as `JSON.stringify`
emits in escape sequences). -/
def hexChar (d : Nat) : Char := "0123456789abcdef".data.getD d '0'

/-- Decimal digits of a positive number, most significant first. -/
def natDigitsAux : Nat → Nat → List Char
  | 0, _ => []
  | f + 1, n => if n = 0 then [] else natDigitsAux f (n / 10) ++ [digitChar (n % 10)]

/-- Decimal representation of a natural number. -/
def natToChars (n : Nat) : List Char := if n = 0 then ['0'] else natDigitsAux (n + 1) n

/-- Decimal representation of an integer (`String(n)` for an integral JS
number). -/
def intToChars : Int → List Char
  | .ofNat n => natToChars n
  | .negSucc m => '-' :: natToChars (m + 1)

/-- The opening curly brace character. -/
def lbrace : Char := Char.ofNat 123

/-- The closing curly brace character. -/
def rbrace : Char := Char.ofNat 125

/-- JSON string escaping of one character, as `JSON.stringify` performs it. -/
def escapeChar (c : Char) : List Char :=
  if c = '"' then ['\\', '"']
  else if c = '\\' then ['\\', '\\']
  else if c.toNat = 8 then ['\\', 'b']
  else if c.toNat = 9 then ['\\', 't']
  else if c.toNat = 10 then ['\\', 'n']
  else if c.toNat = 12 then ['\\', 'f']
  else if c.toNat = 13 then ['\\', 'r']
  else if c.toNat < 32 then ['\\', 'u', '0', '0', hexChar (c.toNat / 16), hexChar (c.toNat % 16)]
  else [c]

def escapeString : List Char → List Char
  | [] => []
  | c :: cs => escapeChar c ++ escapeString cs

/-- A JSON string literal: quote, escaped body, quote. -/
def quoteString (s : List Char) : List Char := '"' :: escapeString s ++ ['"']

/-- `JSON.stringify`.  Faithful to JS up to the model restrictions: numbers
are integers, strings are well-formed unicode.  `undef` at the top level is
unreachable from `enCodeMessage` (which returns early on `undefined`); inside
arrays it serializes as `null` and object members with `undef` values are
skipped, as in JS. -/
def stringifyJson : JsValue → List Char
  | .undef => "null".data
  | .null => "null".data
  | .bool true => "true".data
  | .bool false => "false".data
  | .num n => intToChars n
  | .str s => quoteString s
  | .arr [] => "[]".data
  | .arr (x :: xs) => '[' :: stringifyJson x ++ stringifyElemsTail xs ++ [']']
  | .obj fs => lbrace :: stringifyFirstFields fs ++ [rbrace]
where
  stringifyElemsTail : List JsValue → List Char
    | [] => []
    | x :: xs => ',' :: stringifyJson x ++ stringifyElemsTail xs
  stringifyFirstFields : List (List Char × JsValue) → List Char
    | [] => []
    | (k, v) :: fs =>
      match v with
      | .undef => stringifyFirstFields fs
      | _ => quoteString k ++ ':' :: stringifyJson v ++ stringifyFieldsTail fs
  stringifyFieldsTail : List (List Char × JsValue) → List Char
    | [] => []
    | (k, v) :: fs =>
      match v with
      | .undef => stringifyFieldsTail fs
      | _ => ',' :: quoteString k ++ ':' :: stringifyJson v ++ stringifyFieldsTail fs

/-- Whether a value is JSON-representable in the sense of the specification:
no `undefined` anywhere, and object keys distinct (a JS object cannot have
two properties with the same key). -/
def jsonRep : JsValue → Bool
  | .undef => false
  | .null => true
  | .bool _ => true
  | .num _ => true
  | .str _ => true
  | .arr xs => jsonRepList xs
  | .obj fs => jsonRepFields fs
where
  jsonRepList : List JsValue → Bool
    | [] => true
    | x :: xs => jsonRep x && jsonRepList xs
  jsonRepFields : List (List Char × JsValue) → Bool
    | [] => true
    | (k, v) :: fs => jsonRep v && keyAbsent k fs && jsonRepFields fs
  keyAbsent (k : List Char) : List (List Char × JsValue) → Bool
    | [] => true
    | (l, _) :: fs => decide (k ≠ l) && keyAbsent k fs

/-- JSON whitespace. -/
def isJsonWs (c : Char) : Bool := c = ' ' || c.toNat = 9 || c.toNat = 10 || c.toNat = 13

/-- Skip JSON whitespace. -/
def skipWs (s : List Char) : List Char := s.dropWhile isJsonWs

/-- Value of a hexadecimal digit. -/
def hexVal (c : Char) : Option Nat :=
  if '0' ≤ c ∧ c ≤ '9' then some (c.toNat - 48)
  else if 'a' ≤ c ∧ c ≤ 'f' then some (c.toNat - 87)
  else if 'A' ≤ c ∧ c ≤ 'F' then some (c.toNat - 55)
  else none

/-- Value of a 4-digit hexadecimal escape. -/
def hex4 (h1 h2 h3 h4 : Char) : Option Nat :=
  match hexVal h1, hexVal h2, hexVal h3, hexVal h4 with
  | some d1, some d2, some d3, some d4 => some (((d1 * 16 + d2) * 16 + d3) * 16 + d4)
  | _, _, _, _ => none

/-- Parse the body of a JSON string literal after the opening quote,
returning the decoded string and the input after the closing quote.
Escape handling follows `JSON.parse`; a `\uXXXX` escape denoting a lone
surrogate yields U+FFFD, since the model's strings are sequences of
unicode scalar values.  The fuel decreases once per decoded character;
callers pass the input length plus one. -/
def parseStringBody : Nat → List Char → Option (List Char × List Char)
  | 0, _ => none
  | _ + 1, [] => none
  | f + 1, c :: cs =>
    if c = '"' then some ([], cs)
    else if c = '\\' then
      match cs with
      | [] => none
      | e :: cs2 =>
        if e = '"' then
          match parseStringBody f cs2 with
          | some (s, r) => some ('"' :: s, r)
          | none => none
        else if e = '\\' then
          match parseStringBody f cs2 with
          | some (s, r) => some ('\\' :: s, r)
          | none => none
        else if e = '/' then
          match parseStringBody f cs2 with
          | some (s, r) => some ('/' :: s, r)
          | none => none
        else if e = 'b' then
          match parseStringBody f cs2 with
          | some (s, r) => some (Char.ofNat 8 :: s, r)
          | none => none
        else if e = 'f' then
          match parseStringBody f cs2 with
          | some (s, r) => some (Char.ofNat 12 :: s, r)
          | none => none
        else if e = 'n' then
          match parseStringBody f cs2 with
          | some (s, r) => some (Char.ofNat 10 :: s, r)
          | none => none
        else if e = 'r' then
          match parseStringBody f cs2 with
          | some (s, r) => some (Char.ofNat 13 :: s, r)
          | none => none
        else if e = 't' then
          match parseStringBody f cs2 with
          | some (s, r) => some (Char.ofNat 9 :: s, r)
          | none => none
        else if e = 'u' then
          match cs2 with
          | h1 :: h2 :: h3 :: h4 :: cs3 =>
            match hex4 h1 h2 h3 h4 with
            | none => none
            | some n =>
              if 0xD800 ≤ n ∧ n < 0xDC00 then
                match cs3 with
                | d1 :: d2 :: g1 :: g2 :: g3 :: g4 :: cs4 =>
                  if d1 = '\\' ∧ d2 = 'u' then
                    match hex4 g1 g2 g3 g4 with
                    | some m =>
                      if 0xDC00 ≤ m ∧ m < 0xE000 then
                        match parseStringBody f cs4 with
                        | some (s, r) =>
                          some (Char.ofNat (0x10000 + (n - 0xD800) * 1024 + (m - 0xDC00)) :: s, r)
                        | none => none
                      else
                        match parseStringBody f cs3 with
                        | some (s, r) => some (replacementChar :: s, r)
                        | none => none
                    | none =>
                      match parseStringBody f cs3 with
                      | some (s, r) => some (replacementChar :: s, r)
                      | none => none
                  else
                    match parseStringBody f cs3 with
                    | some (s, r) => some (replacementChar :: s, r)
                    | none => none
                | _ =>
                  match parseStringBody f cs3 with
                  | some (s, r) => some (replacementChar :: s, r)
                  | none => none
              else if 0xDC00 ≤ n ∧ n < 0xE000 then
                match parseStringBody f cs3 with
                | some (s, r) => some (replacementChar :: s, r)
                | none => none
              else
                match parseStringBody f cs3 with
                | some (s, r) => some (Char.ofNat n :: s, r)
                | none => none
          | _ => none
        else none
    else if c.toNat < 32 then none
    else
      match parseStringBody f cs with
      | some (s, r) => some (c :: s, r)
      | none => none

/-- Accumulating decimal value of a digit sequence. -/
def digitsVal : Nat → List Char → Nat
  | acc, [] => acc
  | acc, c :: cs => digitsVal (acc * 10 + (c.toNat - 48)) cs

/-- Whether a digit sequence has a superfluous leading zero (rejected by
`JSON.parse`). -/
def leadingZero : List Char → Bool
  | '0' :: _ :: _ => true
  | _ => false

/-- Whether the input continues with a fraction or exponent marker. -/
def numContinues : List Char → Bool
  | c :: _ => c = '.' || c = 'e' || c = 'E'
  | [] => false

/-- Parse an unsigned JSON integer: one or more digits, no leading zero,
and — a model restriction, integers only — not followed by a fraction or
exponent (where `JSON.parse` would produce a non-integral number). -/
def parseNatNum (s : List Char) : Option (Nat × List Char) :=
  let ds := s.takeWhile (fun c => c.isDigit)
  let r := s.dropWhile (fun c => c.isDigit)
  if ds = [] then none
  else if leadingZero ds then none
  else if numContinues r then none
  else some (digitsVal 0 ds, r)

/-- Parse a JSON value (after `JSON.parse`'s tokenizer semantics): skips
whitespace, dispatches on the first character.  The fuel decreases when
descending into array elements and object members; `jsonParse` passes the
input length plus one, which the round-trip theorems show is sufficient
for serialized values. -/
def parseVal : Nat → List Char → Option (JsValue × List Char)
  | 0, _ => none
  | f + 1, s =>
    match skipWs s with
    | [] => none
    | c :: cs =>
      if c = '"' then
        match parseStringBody (cs.length + 1) cs with
        | some (k, r) => some (.str k, r)
        | none => none
      else if c = 't' then
        match cs with
        | 'r' :: 'u' :: 'e' :: cs2 => some (.bool true, cs2)
        | _ => none
      else if c = 'f' then
        match cs with
        | 'a' :: 'l' :: 's' :: 'e' :: cs2 => some (.bool false, cs2)
        | _ => none
      else if c = 'n' then
        match cs with
        | 'u' :: 'l' :: 'l' :: cs2 => some (.null, cs2)
        | _ => none
      else if c = '-' then
        match parseNatNum cs with
        | some (n, r) => some (.num (-(n : Int)), r)
        | none => none
      else if c.isDigit then
        match parseNatNum (c :: cs) with
        | some (n, r) => some (.num (n : Int), r)
        | none => none
      else if c = '[' then
        match skipWs cs with
        | [] => none
        | c2 :: cs2 =>
          if c2 = ']' then some (.arr [], cs2)
          else
            match parseVal f (c2 :: cs2) with
            | some (v, r) =>
              match parseArrTail f r with
              | some (vs, r2) => some (.arr (v :: vs), r2)
              | none => none
            | none => none
      else if c = lbrace then
        match skipWs cs with
        | [] => none
        | c2 :: cs2 =>
          if c2 = rbrace then some (.obj [], cs2)
          else if c2 = '"' then
            match parseStringBody (cs2.length + 1) cs2 with
            | some (k, r) =>
              match skipWs r with
              | ':' :: r2 =>
                match parseVal f r2 with
                | some (v, r3) =>
                  match parseObjTail f r3 with
                  | some (kvs, r4) => some (.obj ((k, v) :: kvs), r4)
                  | none => none
                | none => none
              | _ => none
            | none => none
          else none
      else none
where
  parseArrTail : Nat → List Char → Option (List JsValue × List Char)
    | 0, _ => none
    | f + 1, s =>
      match skipWs s with
      | [] => none
      | c :: cs =>
        if c = ']' then some ([], cs)
        else if c = ',' then
          match parseVal f cs with
          | some (v, r) =>
            match parseArrTail f r with
            | some (vs, r2) => some (v :: vs, r2)
            | none => none
          | none => none
        else none
  parseObjTail : Nat → List Char → Option (List (List Char × JsValue) × List Char)
    | 0, _ => none
    | f + 1, s =>
      match skipWs s with
      | [] => none
      | c :: cs =>
        if c = rbrace then some ([], cs)
        else if c = ',' then
          match skipWs cs with
          | '"' :: cs2 =>
            match parseStringBody (cs2.length + 1) cs2 with
            | some (k, r) =>
              match skipWs r with
              | ':' :: r2 =>
                match parseVal f r2 with
                | some (v, r3) =>
                  match parseObjTail f r3 with
                  | some (kvs, r4) => some ((k, v) :: kvs, r4)
                  | none => none
                | none => none
              | _ => none
            | none => none
          | _ => none
        else none

/-- Model of `JSON.parse`: parse one value and require only whitespace to
remain, else fail (`JSON.parse` raises on trailing input). -/
def jsonParse (s : List Char) : Option JsValue :=
  match parseVal (s.length + 1) s with
  | some (v, r) => if skipWs r = [] then some v else none
  | none => none

-- ---------------------------------------------------------------------------
-- Round-trip lemmas: decimal digits
-- ---------------------------------------------------------------------------

theorem digitChar_isDigit : ∀ d < 10, (digitChar d).isDigit = true := by decide

theorem digitChar_toNat : ∀ d < 10, (digitChar d).toNat = 48 + d := by decide

theorem digitChar_ne_zero : ∀ d < 10, d ≠ 0 → digitChar d ≠ '0' := by decide

theorem natDigitsAux_all_digits :
    ∀ (f n : Nat), ∀ c ∈ natDigitsAux f n, c.isDigit = true
  | 0, _ => by simp [natDigitsAux]
  | f + 1, n => by
    intro c hc
    simp only [natDigitsAux] at hc
    by_cases h : n = 0
    · simp [h] at hc
    · rw [if_neg h] at hc
      rcases List.mem_append.mp hc with h1 | h2
      · exact natDigitsAux_all_digits f (n / 10) c h1
      · simp at h2
        subst h2
        exact digitChar_isDigit _ (Nat.mod_lt _ (by omega))

theorem natDigitsAux_ne_nil :
    ∀ (f n : Nat), n ≠ 0 → natDigitsAux (f + 1) n ≠ [] := by
  intro f n h
  simp only [natDigitsAux, if_neg h]
  simp

theorem natDigitsAux_zero : ∀ f, natDigitsAux f 0 = []
  | 0 => rfl
  | _ + 1 => by simp [natDigitsAux]

theorem natDigitsAux_head_ne_zero :
    ∀ (f n : Nat), n ≠ 0 → n ≤ f → ∀ d t, natDigitsAux f n = d :: t → d ≠ '0'
  | 0, n, h, hf, d, t => by omega
  | f + 1, n, h, hf, d, t => by
    simp only [natDigitsAux, if_neg h]
    by_cases h10 : n / 10 = 0
    · rw [h10, natDigitsAux_zero]
      intro he
      have hd : d = digitChar (n % 10) := by
        simp at he
        exact he.1.symm
      subst hd
      exact digitChar_ne_zero _ (Nat.mod_lt _ (by omega)) (by omega)
    · intro he
      have hle : n / 10 ≤ f := by omega
      match hrec : natDigitsAux f (n / 10) with
      | [] =>
        exfalso
        obtain ⟨f2, rfl⟩ : ∃ f2, f = f2 + 1 := ⟨f - 1, by omega⟩
        exact natDigitsAux_ne_nil f2 _ h10 hrec
      | d2 :: t2 =>
        rw [hrec] at he
        simp at he
        exact he.1 ▸ natDigitsAux_head_ne_zero f (n / 10) h10 hle d2 t2 hrec

theorem digitsVal_nil (acc : Nat) : digitsVal acc [] = acc := rfl

theorem digitsVal_cons (acc : Nat) (c : Char) (cs : List Char) :
    digitsVal acc (c :: cs) = digitsVal (acc * 10 + (c.toNat - 48)) cs := rfl

theorem digitsVal_append (xs ys : List Char) :
    ∀ acc : Nat, digitsVal acc (xs ++ ys) = digitsVal (digitsVal acc xs) ys := by
  induction xs with
  | nil => intro acc; rfl
  | cons x xs ih =>
    intro acc
    rw [List.cons_append, digitsVal_cons, digitsVal_cons]
    exact ih _

theorem digitsVal_natDigitsAux :
    ∀ (f n acc : Nat), n ≤ f →
      digitsVal acc (natDigitsAux f n) = acc * 10 ^ (natDigitsAux f n).length + n
  | 0, n, acc, h => by
    have : n = 0 := by omega
    subst this
    simp [natDigitsAux, digitsVal_nil]
  | f + 1, n, acc, h => by
    by_cases h0 : n = 0
    · subst h0
      simp [natDigitsAux, digitsVal_nil]
    · simp only [natDigitsAux, if_neg h0]
      rw [digitsVal_append, digitsVal_natDigitsAux f (n / 10) acc (by omega)]
      rw [digitsVal_cons, digitsVal_nil]
      simp only [List.length_append, List.length_cons, List.length_nil]
      rw [digitChar_toNat _ (Nat.mod_lt _ (by omega))]
      have he : 48 + n % 10 - 48 = n % 10 := by omega
      rw [he]
      ring_nf
      omega

theorem digitsVal_natToChars (n : Nat) : digitsVal 0 (natToChars n) = n := by
  unfold natToChars
  by_cases h : n = 0
  · subst h; rfl
  · rw [if_neg h, digitsVal_natDigitsAux (n + 1) n 0 (by omega)]
    simp

theorem natToChars_all_digits (n : Nat) : ∀ c ∈ natToChars n, c.isDigit = true := by
  unfold natToChars
  by_cases h : n = 0
  · subst h; simp
  · rw [if_neg h]
    exact natDigitsAux_all_digits _ _

theorem natToChars_ne_nil (n : Nat) : natToChars n ≠ [] := by
  unfold natToChars
  by_cases h : n = 0
  · subst h; simp
  · rw [if_neg h]
    exact natDigitsAux_ne_nil n n h

theorem leadingZero_eq_false (d : Char) (t : List Char) (h : d ≠ '0') :
    leadingZero (d :: t) = false := by
  unfold leadingZero
  split
  · rename_i heq
    injection heq with h1 _
    exact absurd h1 h
  · rfl

theorem natToChars_no_leadingZero (n : Nat) : leadingZero (natToChars n) = false := by
  unfold natToChars
  by_cases h : n = 0
  · subst h; rfl
  · rw [if_neg h]
    match hd : natDigitsAux (n + 1) n with
    | [] => rfl
    | d :: t =>
      exact leadingZero_eq_false d t (natDigitsAux_head_ne_zero (n + 1) n h (by omega) d t hd)

-- ---------------------------------------------------------------------------
-- Round-trip lemmas: number token
-- ---------------------------------------------------------------------------

/-- The input after a serialized number must not continue with characters
that would extend the number token. -/
def numStopOk : List Char → Bool
  | [] => true
  | c :: _ => !(c.isDigit || c = '.' || c = 'e' || c = 'E')

theorem takeWhile_append_of_all (p : Char → Bool) :
    ∀ (xs ys : List Char), (∀ c ∈ xs, p c = true) →
      (∀ y t, ys = y :: t → p y = false) → (xs ++ ys).takeWhile p = xs
  | [], ys, _, hy => by
    cases ys with
    | nil => rfl
    | cons y t => simp [List.takeWhile_cons, hy y t rfl]
  | x :: xs, ys, hx, hy => by
    simp only [List.cons_append, List.takeWhile_cons, hx x (by simp)]
    simp only [if_true, List.cons.injEq, true_and]
    exact takeWhile_append_of_all p xs ys (fun c hc => hx c (by simp [hc])) hy

theorem dropWhile_append_of_all (p : Char → Bool) :
    ∀ (xs ys : List Char), (∀ c ∈ xs, p c = true) →
      (∀ y t, ys = y :: t → p y = false) → (xs ++ ys).dropWhile p = ys
  | [], ys, _, hy => by
    cases ys with
    | nil => rfl
    | cons y t => simp [List.dropWhile_cons, hy y t rfl]
  | x :: xs, ys, hx, hy => by
    simp only [List.cons_append, List.dropWhile_cons, hx x (by simp)]
    simp only [if_true]
    exact dropWhile_append_of_all p xs ys (fun c hc => hx c (by simp [hc])) hy

theorem numContinues_of_numStopOk (r : List Char) (h : numStopOk r = true) :
    numContinues r = false := by
  cases r with
  | nil => rfl
  | cons c t =>
    simp only [numStopOk, Bool.not_eq_eq_eq_not, Bool.not_true] at h
    simp only [numContinues]
    simp only [Bool.or_eq_false_iff] at h ⊢
    obtain ⟨⟨⟨_, h2⟩, h3⟩, h4⟩ := h
    exact ⟨⟨h2, h3⟩, h4⟩

theorem numStopOk_head_not_digit (c : Char) (t : List Char)
    (h : numStopOk (c :: t) = true) : c.isDigit = false := by
  simp only [numStopOk, Bool.not_eq_eq_eq_not, Bool.not_true, Bool.or_eq_false_iff] at h
  exact h.1.1.1

/-- Parsing the serialization of a natural number returns the number and the
rest of the input. -/
theorem parseNatNum_natToChars (n : Nat) (rest : List Char) (h : numStopOk rest = true) :
    parseNatNum (natToChars n ++ rest) = some (n, rest) := by
  have hall : ∀ c ∈ natToChars n, c.isDigit = true := natToChars_all_digits n
  have hstop : ∀ y t, rest = y :: t → y.isDigit = false := by
    intro y t he
    subst he
    exact numStopOk_head_not_digit y t h
  have htw : (natToChars n ++ rest).takeWhile (fun c => c.isDigit) = natToChars n :=
    takeWhile_append_of_all _ _ _ hall hstop
  have hdw : (natToChars n ++ rest).dropWhile (fun c => c.isDigit) = rest :=
    dropWhile_append_of_all _ _ _ hall hstop
  simp only [parseNatNum, htw, hdw]
  rw [if_neg (natToChars_ne_nil n), if_neg (by simp [natToChars_no_leadingZero n]),
    if_neg (by simp [numContinues_of_numStopOk rest h]), digitsVal_natToChars]

-- ---------------------------------------------------------------------------
-- Round-trip lemmas: string literals
-- ---------------------------------------------------------------------------

theorem psb_step_quote (g : Nat) (t : List Char) :
    parseStringBody (g + 1) ('\\' :: '"' :: t) =
      match parseStringBody g t with
      | some (s, r) => some ('"' :: s, r)
      | none => none := rfl

theorem psb_step_backslash (g : Nat) (t : List Char) :
    parseStringBody (g + 1) ('\\' :: '\\' :: t) =
      match parseStringBody g t with
      | some (s, r) => some ('\\' :: s, r)
      | none => none := rfl

theorem psb_step_b (g : Nat) (t : List Char) :
    parseStringBody (g + 1) ('\\' :: 'b' :: t) =
      match parseStringBody g t with
      | some (s, r) => some (Char.ofNat 8 :: s, r)
      | none => none := rfl

theorem psb_step_t (g : Nat) (t : List Char) :
    parseStringBody (g + 1) ('\\' :: 't' :: t) =
      match parseStringBody g t with
      | some (s, r) => some (Char.ofNat 9 :: s, r)
      | none => none := rfl

theorem psb_step_n (g : Nat) (t : List Char) :
    parseStringBody (g + 1) ('\\' :: 'n' :: t) =
      match parseStringBody g t with
      | some (s, r) => some (Char.ofNat 10 :: s, r)
      | none => none := rfl

theorem psb_step_f (g : Nat) (t : List Char) :
    parseStringBody (g + 1) ('\\' :: 'f' :: t) =
      match parseStringBody g t with
      | some (s, r) => some (Char.ofNat 12 :: s, r)
      | none => none := rfl

theorem psb_step_r (g : Nat) (t : List Char) :
    parseStringBody (g + 1) ('\\' :: 'r' :: t) =
      match parseStringBody g t with
      | some (s, r) => some (Char.ofNat 13 :: s, r)
      | none => none := rfl

theorem psb_step_u (n : Nat) (hn : n < 32) (g : Nat) (t : List Char) :
    parseStringBody (g + 1)
        ('\\' :: 'u' :: '0' :: '0' :: hexChar (n / 16) :: hexChar (n % 16) :: t) =
      match parseStringBody g t with
      | some (s, r) => some (Char.ofNat n :: s, r)
      | none => none := by
  interval_cases n <;> rfl

theorem psb_step_plain (c : Char) (h1 : c ≠ '"') (h2 : c ≠ '\\') (h3 : ¬c.toNat < 32)
    (g : Nat) (t : List Char) :
    parseStringBody (g + 1) (c :: t) =
      match parseStringBody g t with
      | some (s, r) => some (c :: s, r)
      | none => none := by
  simp only [parseStringBody, if_neg h1, if_neg h2, if_neg h3]

/-- Parsing one escaped character consumes one unit of fuel and produces the
character. -/
theorem parseStringBody_escapeChar (c : Char) (g : Nat) (t : List Char) :
    parseStringBody (g + 1) (escapeChar c ++ t) =
      match parseStringBody g t with
      | some (s, r) => some (c :: s, r)
      | none => none := by
  by_cases h1 : c = '"'
  · subst h1
    exact psb_step_quote g t
  by_cases h2 : c = '\\'
  · subst h2
    simp only [escapeChar, if_neg (by decide : ('\\' : Char) ≠ '"'), if_pos rfl]
    exact psb_step_backslash g t
  by_cases h3 : c.toNat = 8
  · have hc : c = Char.ofNat 8 := by rw [← h3, Char.ofNat_toNat]
    subst hc
    simp only [escapeChar]
    rw [if_neg (by decide), if_neg (by decide), if_pos (by decide)]
    exact psb_step_b g t
  by_cases h4 : c.toNat = 9
  · have hc : c = Char.ofNat 9 := by rw [← h4, Char.ofNat_toNat]
    subst hc
    simp only [escapeChar]
    rw [if_neg (by decide), if_neg (by decide), if_neg (by decide), if_pos (by decide)]
    exact psb_step_t g t
  by_cases h5 : c.toNat = 10
  · have hc : c = Char.ofNat 10 := by rw [← h5, Char.ofNat_toNat]
    subst hc
    simp only [escapeChar]
    rw [if_neg (by decide), if_neg (by decide), if_neg (by decide), if_neg (by decide),
      if_pos (by decide)]
    exact psb_step_n g t
  by_cases h6 : c.toNat = 12
  · have hc : c = Char.ofNat 12 := by rw [← h6, Char.ofNat_toNat]
    subst hc
    simp only [escapeChar]
    rw [if_neg (by decide), if_neg (by decide), if_neg (by decide), if_neg (by decide),
      if_neg (by decide), if_pos (by decide)]
    exact psb_step_f g t
  by_cases h7 : c.toNat = 13
  · have hc : c = Char.ofNat 13 := by rw [← h7, Char.ofNat_toNat]
    subst hc
    simp only [escapeChar]
    rw [if_neg (by decide), if_neg (by decide), if_neg (by decide), if_neg (by decide),
      if_neg (by decide), if_neg (by decide), if_pos (by decide)]
    exact psb_step_r g t
  by_cases h8 : c.toNat < 32
  · simp only [escapeChar, if_neg h1, if_neg h2, if_neg h3, if_neg h4, if_neg h5, if_neg h6,
      if_neg h7, if_pos h8, List.cons_append, List.nil_append]
    rw [psb_step_u c.toNat h8 g t, Char.ofNat_toNat]
  · simp only [escapeChar, if_neg h1, if_neg h2, if_neg h3, if_neg h4, if_neg h5, if_neg h6,
      if_neg h7, if_neg h8, List.cons_append, List.nil_append]
    exact psb_step_plain c h1 h2 h8 g t

/-- Parsing the escaped serialization of a string, followed by the closing
quote, returns the string. -/
theorem parseStringBody_escape :
    ∀ (s : List Char) (f : Nat) (rest : List Char), s.length < f →
      parseStringBody f (escapeString s ++ '"' :: rest) = some (s, rest)
  | [], f + 1, rest, _ => rfl
  | c :: cs, f + 1, rest, h => by
    have he : escapeString (c :: cs) ++ '"' :: rest =
        escapeChar c ++ (escapeString cs ++ '"' :: rest) := by
      simp [escapeString, List.append_assoc]
    rw [he, parseStringBody_escapeChar,
      parseStringBody_escape cs f rest (by simp only [List.length_cons] at h; omega)]

theorem length_le_escapeString : ∀ s : List Char, s.length ≤ (escapeString s).length
  | [] => Nat.le_refl 0
  | c :: cs => by
    have h1 : 0 < (escapeChar c).length := by
      unfold escapeChar
      repeat' split
      all_goals simp
    have h2 := length_le_escapeString cs
    simp only [escapeString, List.length_append, List.length_cons]
    omega

-- ---------------------------------------------------------------------------
-- Round-trip lemmas: token heads and whitespace
-- ---------------------------------------------------------------------------

theorem skipWs_cons (c : Char) (t : List Char) (h : isJsonWs c = false) :
    skipWs (c :: t) = c :: t := by
  simp [skipWs, List.dropWhile_cons, h]

/-- A serialized value is nonempty and starts with a character that is
neither whitespace nor a closing bracket. -/
def tokenHeadOk : List Char → Bool
  | [] => false
  | c :: _ => !isJsonWs c && !(c = ']')

theorem char_isDigit_bounds (c : Char) (h : c.isDigit = true) :
    48 ≤ c.toNat ∧ c.toNat ≤ 57 := by
  simp [Char.isDigit] at h
  exact ⟨h.1, h.2⟩

theorem digit_tokenHeadOk (c : Char) (h : c.isDigit = true) (t : List Char) :
    tokenHeadOk (c :: t) = true := by
  obtain ⟨hb1, hb2⟩ := char_isDigit_bounds c h
  show (!isJsonWs c && !(c = ']')) = true
  have hws : isJsonWs c = false := by
    simp only [isJsonWs, Bool.or_eq_false_iff, decide_eq_false_iff_not]
    refine ⟨⟨⟨?_, by omega⟩, by omega⟩, by omega⟩
    intro he
    subst he
    revert hb1
    decide
  have hne : (decide (c = ']')) = false := by
    simp only [decide_eq_false_iff_not]
    intro he
    subst he
    revert hb2
    decide
  simp [hws, hne]

theorem digit_isJsonWs (c : Char) (h : c.isDigit = true) : isJsonWs c = false := by
  have := digit_tokenHeadOk c h []
  simp only [tokenHeadOk, Bool.and_eq_true, Bool.not_eq_true'] at this
  exact this.1

theorem stringify_tokenHeadOk (v : JsValue) : tokenHeadOk (stringifyJson v) = true := by
  cases v with
  | undef => rfl
  | null => rfl
  | bool b => cases b <;> rfl
  | num i =>
    cases i with
    | ofNat n =>
      show tokenHeadOk (natToChars n) = true
      match hm : natToChars n with
      | [] => exact absurd hm (natToChars_ne_nil n)
      | c :: t =>
        exact digit_tokenHeadOk c (natToChars_all_digits n c (by rw [hm]; simp)) t
    | negSucc m => rfl
  | str s => rfl
  | arr xs => cases xs <;> rfl
  | obj fs => rfl

theorem tokenHeadOk_shape (s : List Char) (h : tokenHeadOk s = true) :
    ∃ c t, s = c :: t ∧ isJsonWs c = false ∧ c ≠ ']' := by
  cases s with
  | nil => exact absurd h (by simp [tokenHeadOk])
  | cons c t =>
    simp only [tokenHeadOk, Bool.and_eq_true, Bool.not_eq_true'] at h
    exact ⟨c, t, rfl, h.1, by simpa using h.2⟩

-- ---------------------------------------------------------------------------
-- Round-trip lemmas: value-parser dispatch steps
-- ---------------------------------------------------------------------------

theorem pv_step_quote (g : Nat) (t : List Char) :
    parseVal (g + 1) ('"' :: t) =
      match parseStringBody (t.length + 1) t with
      | some (k, r) => some (.str k, r)
      | none => none := rfl

theorem pv_step_true (g : Nat) (t : List Char) :
    parseVal (g + 1) ('t' :: 'r' :: 'u' :: 'e' :: t) = some (.bool true, t) := rfl

theorem pv_step_false (g : Nat) (t : List Char) :
    parseVal (g + 1) ('f' :: 'a' :: 'l' :: 's' :: 'e' :: t) = some (.bool false, t) := rfl

theorem pv_step_null (g : Nat) (t : List Char) :
    parseVal (g + 1) ('n' :: 'u' :: 'l' :: 'l' :: t) = some (.null, t) := rfl

theorem pv_step_neg (g : Nat) (t : List Char) :
    parseVal (g + 1) ('-' :: t) =
      match parseNatNum t with
      | some (n, r) => some (.num (-(n : Int)), r)
      | none => none := rfl

theorem pv_step_digit (c : Char) (h : c.isDigit = true) (g : Nat) (t : List Char) :
    parseVal (g + 1) (c :: t) =
      match parseNatNum (c :: t) with
      | some (n, r) => some (.num (n : Int), r)
      | none => none := by
  obtain ⟨hb1, hb2⟩ := char_isDigit_bounds c h
  have hq : c ≠ '"' := by intro he; subst he; revert hb1; decide
  have ht : c ≠ 't' := by intro he; subst he; revert hb2; decide
  have hf : c ≠ 'f' := by intro he; subst he; revert hb2; decide
  have hn : c ≠ 'n' := by intro he; subst he; revert hb2; decide
  have hm : c ≠ '-' := by intro he; subst he; revert hb1; decide
  simp only [parseVal]
  rw [skipWs_cons c t (digit_isJsonWs c h)]
  dsimp only
  rw [if_neg hq, if_neg ht, if_neg hf, if_neg hn, if_neg hm, if_pos h]

theorem pv_step_arrEmpty (g : Nat) (t : List Char) :
    parseVal (g + 1) ('[' :: ']' :: t) = some (.arr [], t) := rfl

theorem pv_step_arr (c2 : Char) (h1 : isJsonWs c2 = false) (h2 : c2 ≠ ']')
    (g : Nat) (cs2 : List Char) :
    parseVal (g + 1) ('[' :: c2 :: cs2) =
      match parseVal g (c2 :: cs2) with
      | some (v, r) =>
        match parseVal.parseArrTail g r with
        | some (vs, r2) => some (.arr (v :: vs), r2)
        | none => none
      | none => none := by
  have key : parseVal (g + 1) ('[' :: c2 :: cs2) =
      match skipWs (c2 :: cs2) with
      | [] => none
      | c3 :: cs3 =>
        if c3 = ']' then some (.arr [], cs3)
        else
          match parseVal g (c3 :: cs3) with
          | some (v, r) =>
            match parseVal.parseArrTail g r with
            | some (vs, r2) => some (.arr (v :: vs), r2)
            | none => none
          | none => none := rfl
  rw [key, skipWs_cons c2 cs2 h1]
  dsimp only
  rw [if_neg h2]

theorem pv_step_objEmpty (g : Nat) (t : List Char) :
    parseVal (g + 1) (lbrace :: rbrace :: t) = some (.obj [], t) := rfl

theorem pv_step_obj (g : Nat) (t : List Char) :
    parseVal (g + 1) (lbrace :: '"' :: t) =
      match parseStringBody (t.length + 1) t with
      | some (k, r) =>
        (match skipWs r with
          | ':' :: r2 =>
            (match parseVal g r2 with
              | some (v, r3) =>
                (match parseVal.parseObjTail g r3 with
                  | some (kvs, r4) => some (.obj ((k, v) :: kvs), r4)
                  | none => none)
              | none => none)
          | _ => none)
      | none => none := rfl

theorem pat_step_done (g : Nat) (t : List Char) :
    parseVal.parseArrTail (g + 1) (']' :: t) = some ([], t) := rfl

theorem pat_step_comma (g : Nat) (t : List Char) :
    parseVal.parseArrTail (g + 1) (',' :: t) =
      match parseVal g t with
      | some (v, r) =>
        match parseVal.parseArrTail g r with
        | some (vs, r2) => some (v :: vs, r2)
        | none => none
      | none => none := rfl

theorem pot_step_done (g : Nat) (t : List Char) :
    parseVal.parseObjTail (g + 1) (rbrace :: t) = some ([], t) := rfl

theorem pot_step_comma (g : Nat) (t : List Char) :
    parseVal.parseObjTail (g + 1) (',' :: '"' :: t) =
      match parseStringBody (t.length + 1) t with
      | some (k, r) =>
        (match skipWs r with
          | ':' :: r2 =>
            (match parseVal g r2 with
              | some (v, r3) =>
                (match parseVal.parseObjTail g r3 with
                  | some (kvs, r4) => some ((k, v) :: kvs, r4)
                  | none => none)
              | none => none)
          | _ => none)
      | none => none := rfl

theorem numStopOk_elemsTail (xs : List JsValue) (rest : List Char) :
    numStopOk (stringifyJson.stringifyElemsTail xs ++ ']' :: rest) = true := by
  cases xs with
  | nil => rfl
  | cons y ys => rfl

theorem numStopOk_fieldsTail :
    ∀ (fs : List (List Char × JsValue)) (rest : List Char),
      numStopOk (stringifyJson.stringifyFieldsTail fs ++ rbrace :: rest) = true
  | [], _ => rfl
  | (k, v) :: fs, rest => by
    cases v with
    | undef => exact numStopOk_fieldsTail fs rest
    | null => rfl
    | bool b => rfl
    | num n => rfl
    | str s => rfl
    | arr l => rfl
    | obj l => rfl

theorem fieldsTail_cons_of_rep (k : List Char) (v : JsValue)
    (fs : List (List Char × JsValue)) (h : jsonRep v = true) :
    stringifyJson.stringifyFieldsTail ((k, v) :: fs) =
      ',' :: quoteString k ++ ':' :: stringifyJson v ++ stringifyJson.stringifyFieldsTail fs := by
  cases v with
  | undef => exact absurd h (by simp [jsonRep])
  | null => rfl
  | bool b => rfl
  | num n => rfl
  | str s => rfl
  | arr l => rfl
  | obj l => rfl

theorem firstFields_cons_of_rep (k : List Char) (v : JsValue)
    (fs : List (List Char × JsValue)) (h : jsonRep v = true) :
    stringifyJson.stringifyFirstFields ((k, v) :: fs) =
      quoteString k ++ ':' :: stringifyJson v ++ stringifyJson.stringifyFieldsTail fs := by
  cases v with
  | undef => exact absurd h (by simp [jsonRep])
  | null => rfl
  | bool b => rfl
  | num n => rfl
  | str s => rfl
  | arr l => rfl
  | obj l => rfl

mutual

/-- Parsing the serialization of a JSON-representable value, followed by any
input that does not extend a number token, returns the value and that input. -/
theorem parseVal_stringify :
    ∀ (v : JsValue) (f : Nat) (rest : List Char),
      jsonRep v = true → (stringifyJson v).length < f → numStopOk rest = true →
      parseVal f (stringifyJson v ++ rest) = some (v, rest)
  | .undef, _, _, hrep, _, _ => by simp [jsonRep] at hrep
  | .null, f, rest, _, hf, _ => by
    obtain ⟨g, rfl⟩ : ∃ g, f = g + 1 := ⟨f - 1, by omega⟩
    exact pv_step_null g rest
  | .bool true, f, rest, _, hf, _ => by
    obtain ⟨g, rfl⟩ : ∃ g, f = g + 1 := ⟨f - 1, by omega⟩
    exact pv_step_true g rest
  | .bool false, f, rest, _, hf, _ => by
    obtain ⟨g, rfl⟩ : ∃ g, f = g + 1 := ⟨f - 1, by omega⟩
    exact pv_step_false g rest
  | .num (.ofNat n), f, rest, _, hf, hstop => by
    obtain ⟨g, rfl⟩ : ∃ g, f = g + 1 := ⟨f - 1, by omega⟩
    show parseVal (g + 1) (natToChars n ++ rest) = some (.num (Int.ofNat n), rest)
    match hm : natToChars n with
    | [] => exact absurd hm (natToChars_ne_nil n)
    | c :: t =>
      have hd : c.isDigit = true := natToChars_all_digits n c (by rw [hm]; simp)
      rw [List.cons_append, pv_step_digit c hd g (t ++ rest), ← List.cons_append, ← hm,
        parseNatNum_natToChars n rest hstop]
      rfl
  | .num (.negSucc m), f, rest, _, hf, hstop => by
    obtain ⟨g, rfl⟩ : ∃ g, f = g + 1 := ⟨f - 1, by omega⟩
    show parseVal (g + 1) (('-' :: natToChars (m + 1)) ++ rest) =
      some (.num (Int.negSucc m), rest)
    rw [List.cons_append, pv_step_neg g _, parseNatNum_natToChars (m + 1) rest hstop]
    simp only [Int.negSucc_eq]
    norm_num
  | .str s, f, rest, _, hf, _ => by
    obtain ⟨g, rfl⟩ : ∃ g, f = g + 1 := ⟨f - 1, by omega⟩
    show parseVal (g + 1) (('"' :: (escapeString s ++ ['"'])) ++ rest) = some (.str s, rest)
    rw [List.cons_append, pv_step_quote g _,
      show (escapeString s ++ ['"']) ++ rest = escapeString s ++ '"' :: rest from by simp,
      parseStringBody_escape s _ rest (by
        have := length_le_escapeString s
        simp only [List.length_append, List.length_cons]
        omega)]
  | .arr [], f, rest, _, hf, _ => by
    obtain ⟨g, rfl⟩ : ∃ g, f = g + 1 := ⟨f - 1, by omega⟩
    exact pv_step_arrEmpty g rest
  | .arr (x :: xs), f, rest, hrep, hf, hstop => by
    obtain ⟨g, rfl⟩ : ∃ g, f = g + 1 := ⟨f - 1, by omega⟩
    simp only [jsonRep, jsonRep.jsonRepList, Bool.and_eq_true] at hrep
    obtain ⟨c2, t2, hS, hws2, hne2⟩ := tokenHeadOk_shape _ (stringify_tokenHeadOk x)
    have hlen : (stringifyJson (.arr (x :: xs))).length =
        1 + (stringifyJson x).length + (stringifyJson.stringifyElemsTail xs).length + 1 := by
      simp [stringifyJson, List.length_append]
      omega
    have hinput : stringifyJson (.arr (x :: xs)) ++ rest =
        '[' :: c2 :: (t2 ++ (stringifyJson.stringifyElemsTail xs ++ ']' :: rest)) := by
      show ('[' :: stringifyJson x ++ stringifyJson.stringifyElemsTail xs ++ [']']) ++ rest = _
      rw [hS]
      simp
    rw [hinput, pv_step_arr c2 hws2 hne2 g _,
      show c2 :: (t2 ++ (stringifyJson.stringifyElemsTail xs ++ ']' :: rest)) =
        stringifyJson x ++ (stringifyJson.stringifyElemsTail xs ++ ']' :: rest) from by
          rw [hS]; simp,
      parseVal_stringify x g _ hrep.1 (by omega) (numStopOk_elemsTail xs rest)]
    try dsimp only
    rw [parseArrTail_stringify xs g rest hrep.2 (by omega)]
  | .obj [], f, rest, _, hf, _ => by
    obtain ⟨g, rfl⟩ : ∃ g, f = g + 1 := ⟨f - 1, by omega⟩
    exact pv_step_objEmpty g rest
  | .obj ((k, v) :: fs), f, rest, hrep, hf, hstop => by
    obtain ⟨g, rfl⟩ : ∃ g, f = g + 1 := ⟨f - 1, by omega⟩
    simp only [jsonRep, jsonRep.jsonRepFields, Bool.and_eq_true] at hrep
    obtain ⟨⟨hv, _⟩, hfs⟩ := hrep
    have hff := firstFields_cons_of_rep k v fs hv
    have hlen : (stringifyJson (.obj ((k, v) :: fs))).length =
        1 + ((escapeString k).length + 2) + 1 + (stringifyJson v).length +
          (stringifyJson.stringifyFieldsTail fs).length + 1 := by
      show (lbrace :: stringifyJson.stringifyFirstFields ((k, v) :: fs) ++ [rbrace]).length = _
      rw [hff]
      simp [quoteString, List.length_append]
      omega
    have hinput : stringifyJson (.obj ((k, v) :: fs)) ++ rest =
        lbrace :: '"' :: (escapeString k ++ '"' ::
          (':' :: (stringifyJson v ++
            (stringifyJson.stringifyFieldsTail fs ++ rbrace :: rest)))) := by
      show (lbrace :: stringifyJson.stringifyFirstFields ((k, v) :: fs) ++ [rbrace]) ++ rest = _
      rw [hff]
      simp [quoteString]
    rw [hinput, pv_step_obj g _,
      parseStringBody_escape k _ _ (by
        have := length_le_escapeString k
        simp only [List.length_append, List.length_cons]
        omega)]
    try dsimp only
    rw [skipWs_cons ':' _ (by decide)]
    show (match parseVal g (stringifyJson v ++
        (stringifyJson.stringifyFieldsTail fs ++ rbrace :: rest)) with
      | some (v2, r3) =>
        match parseVal.parseObjTail g r3 with
        | some (kvs, r4) => some (JsValue.obj ((k, v2) :: kvs), r4)
        | none => none
      | none => none) = some (JsValue.obj ((k, v) :: fs), rest)
    rw [parseVal_stringify v g _ hv (by omega) (numStopOk_fieldsTail fs rest)]
    try dsimp only
    rw [parseObjTail_stringify fs g rest hfs (by omega)]

/-- Parsing the serialized tail of an array (the elements after the first,
each preceded by a comma, then the closing bracket) returns the elements. -/
theorem parseArrTail_stringify :
    ∀ (xs : List JsValue) (f : Nat) (rest : List Char),
      jsonRep.jsonRepList xs = true → (stringifyJson.stringifyElemsTail xs).length < f →
      parseVal.parseArrTail f (stringifyJson.stringifyElemsTail xs ++ ']' :: rest) =
        some (xs, rest)
  | [], f, rest, _, hf => by
    obtain ⟨g, rfl⟩ : ∃ g, f = g + 1 := ⟨f - 1, by omega⟩
    exact pat_step_done g rest
  | y :: ys, f, rest, hrep, hf => by
    obtain ⟨g, rfl⟩ : ∃ g, f = g + 1 := ⟨f - 1, by omega⟩
    simp only [jsonRep.jsonRepList, Bool.and_eq_true] at hrep
    have hlen : (stringifyJson.stringifyElemsTail (y :: ys)).length =
        1 + (stringifyJson y).length + (stringifyJson.stringifyElemsTail ys).length := by
      simp [stringifyJson.stringifyElemsTail, List.length_append]
      omega
    show parseVal.parseArrTail (g + 1)
      ((',' :: stringifyJson y ++ stringifyJson.stringifyElemsTail ys) ++ ']' :: rest) = _
    rw [show (',' :: stringifyJson y ++ stringifyJson.stringifyElemsTail ys) ++ ']' :: rest =
        ',' :: (stringifyJson y ++ (stringifyJson.stringifyElemsTail ys ++ ']' :: rest)) from by
          simp,
      pat_step_comma g _,
      parseVal_stringify y g _ hrep.1 (by omega) (numStopOk_elemsTail ys rest)]
    try dsimp only
    rw [parseArrTail_stringify ys g rest hrep.2 (by omega)]

/-- Parsing the serialized tail of an object (the members after the first,
each preceded by a comma, then the closing brace) returns the members. -/
theorem parseObjTail_stringify :
    ∀ (fs : List (List Char × JsValue)) (f : Nat) (rest : List Char),
      jsonRep.jsonRepFields fs = true → (stringifyJson.stringifyFieldsTail fs).length < f →
      parseVal.parseObjTail f (stringifyJson.stringifyFieldsTail fs ++ rbrace :: rest) =
        some (fs, rest)
  | [], f, rest, _, hf => by
    obtain ⟨g, rfl⟩ : ∃ g, f = g + 1 := ⟨f - 1, by omega⟩
    exact pot_step_done g rest
  | (k, v) :: fs, f, rest, hrep, hf => by
    obtain ⟨g, rfl⟩ : ∃ g, f = g + 1 := ⟨f - 1, by omega⟩
    simp only [jsonRep.jsonRepFields, Bool.and_eq_true] at hrep
    obtain ⟨⟨hv, _⟩, hfs⟩ := hrep
    have hft := fieldsTail_cons_of_rep k v fs hv
    have hlen : (stringifyJson.stringifyFieldsTail ((k, v) :: fs)).length =
        1 + ((escapeString k).length + 2) + 1 + (stringifyJson v).length +
          (stringifyJson.stringifyFieldsTail fs).length := by
      rw [hft]
      simp [quoteString, List.length_append]
      omega
    rw [hft,
      show (',' :: quoteString k ++ ':' :: stringifyJson v ++
          stringifyJson.stringifyFieldsTail fs) ++ rbrace :: rest =
        ',' :: '"' :: (escapeString k ++ '"' ::
          (':' :: (stringifyJson v ++
            (stringifyJson.stringifyFieldsTail fs ++ rbrace :: rest)))) from by
          simp [quoteString],
      pot_step_comma g _,
      parseStringBody_escape k _ _ (by
        have := length_le_escapeString k
        simp only [List.length_append, List.length_cons]
        omega)]
    try dsimp only
    rw [skipWs_cons ':' _ (by decide)]
    show (match parseVal g (stringifyJson v ++
        (stringifyJson.stringifyFieldsTail fs ++ rbrace :: rest)) with
      | some (v2, r3) =>
        match parseVal.parseObjTail g r3 with
        | some (kvs, r4) => some ((k, v2) :: kvs, r4)
        | none => none
      | none => none) = some ((k, v) :: fs, rest)
    rw [parseVal_stringify v g _ hv (by omega) (numStopOk_fieldsTail fs rest)]
    try dsimp only
    rw [parseObjTail_stringify fs g rest hfs (by omega)]

end

/-- `JSON.parse` inverts `JSON.stringify` on JSON-representable values. -/
theorem jsonParse_stringify (v : JsValue) (h : jsonRep v = true) :
    jsonParse (stringifyJson v) = some v := by
  unfold jsonParse
  have hp := parseVal_stringify v ((stringifyJson v).length + 1) [] h (by omega) rfl
  rw [List.append_nil] at hp
  rw [hp]
  rfl

theorem utf8EncodeChar_lt_256 (c : Char) : ∀ b ∈ utf8EncodeChar c, b < 256 := by
  have hlt := char_toNat_lt c
  intro b hb
  unfold utf8EncodeChar at hb
  by_cases h1 : c.toNat < 0x80
  · rw [if_pos h1] at hb
    simp at hb
    omega
  · by_cases h2 : c.toNat < 0x800
    · rw [if_neg h1, if_pos h2] at hb
      simp at hb
      rcases hb with h | h <;> omega
    · by_cases h3 : c.toNat < 0x10000
      · rw [if_neg h1, if_neg h2, if_pos h3] at hb
        simp at hb
        rcases hb with h | h | h <;> omega
      · rw [if_neg h1, if_neg h2, if_neg h3] at hb
        simp at hb
        rcases hb with h | h | h | h <;> omega

theorem utf8Encode_lt_256 : ∀ s : List Char, ∀ b ∈ utf8Encode s, b < 256
  | [] => by simp [utf8Encode]
  | c :: cs => by
    intro b hb
    simp only [utf8Encode, List.mem_append] at hb
    rcases hb with h | h
    · exact utf8EncodeChar_lt_256 c b h
    · exact utf8Encode_lt_256 cs b h

-- ---------------------------------------------------------------------------
-- The default codec: `enCodeMessage` and `deCodeMessage`
-- ---------------------------------------------------------------------------

/-- Model of `enCodeMessage` (UTF-8-safe base64 with a type marker):
`null`/`undefined` return `null`; strings are tagged `s`, everything else is
serialized with `JSON.stringify` and tagged `o`; the content is UTF-8
encoded and base64 converted, and the result is `marker:base64`.  The
source's `try`/`catch` never fires in the model (its `JSON.stringify` and
`btoa` calls cannot throw on model values). -/
def enCodeMessage (payload : JsValue) : JsValue :=
  match payload with
  | .null => .null
  | .undef => .null
  | .str s => .str ('s' :: ':' :: btoa (utf8Encode s))
  | v => .str ('o' :: ':' :: btoa (utf8Encode (stringifyJson v)))

/-- `indexOf(':')` followed by the two `slice` calls of `deCodeMessage`:
the part before the first colon and the part after it, or `none` when the
string has no colon (where `deCodeMessage` returns `null`). -/
def splitAtFirstColon : List Char → Option (List Char × List Char)
  | [] => none
  | c :: cs =>
    if c = ':' then some ([], cs)
    else
      match splitAtFirstColon cs with
      | some (m, r) => some (c :: m, r)
      | none => none

/-- Model of `deCodeMessage`: non-strings decode to `null`; otherwise the
input is split at the first colon into marker and base64 payload, the
payload is base64- and UTF-8-decoded (`atob` failure is caught and yields
`null`), and an `o` marker triggers `JSON.parse` with fallback to the
decoded text on parse failure. -/
def deCodeMessage (encoded : JsValue) : JsValue :=
  match encoded with
  | .str s =>
    match splitAtFirstColon s with
    | none => .null
    | some (marker, b64) =>
      match atob b64 with
      | none => .null
      | some bytes =>
        let decodedStr := utf8Decode bytes
        if marker = ['s'] then .str decodedStr
        else if marker = ['o'] then
          match jsonParse decodedStr with
          | some v => v
          | none => .str decodedStr
        else .str decodedStr
  | _ => .null

/-- The default codec round-trips every JSON-representable value. -/
theorem deCodeMessage_enCodeMessage (v : JsValue) (h : jsonRep v = true) :
    deCodeMessage (enCodeMessage v) = v := by
  cases v with
  | undef => exact absurd h (by simp [jsonRep])
  | null => rfl
  | str s =>
    show deCodeMessage (.str ('s' :: ':' :: btoa (utf8Encode s))) = .str s
    have hsplit : splitAtFirstColon ('s' :: ':' :: btoa (utf8Encode s)) =
        some (['s'], btoa (utf8Encode s)) := rfl
    simp only [deCodeMessage, hsplit, atob_btoa (utf8Encode s) (utf8Encode_lt_256 s)]
    rw [if_true, utf8Decode_encode]
  | bool b =>
    show deCodeMessage (.str ('o' :: ':' :: btoa (utf8Encode (stringifyJson (.bool b))))) = _
    simp only [deCodeMessage, show splitAtFirstColon ('o' :: ':' ::
        btoa (utf8Encode (stringifyJson (.bool b)))) =
      some (['o'], btoa (utf8Encode (stringifyJson (.bool b)))) from rfl,
      atob_btoa _ (utf8Encode_lt_256 _)]
    rw [if_true, utf8Decode_encode, jsonParse_stringify _ h,
      if_neg (show (['o'] : List Char) ≠ ['s'] by decide)]
  | num n =>
    show deCodeMessage (.str ('o' :: ':' :: btoa (utf8Encode (stringifyJson (.num n))))) = _
    simp only [deCodeMessage, show splitAtFirstColon ('o' :: ':' ::
        btoa (utf8Encode (stringifyJson (.num n)))) =
      some (['o'], btoa (utf8Encode (stringifyJson (.num n)))) from rfl,
      atob_btoa _ (utf8Encode_lt_256 _)]
    rw [if_true, utf8Decode_encode, jsonParse_stringify _ h,
      if_neg (show (['o'] : List Char) ≠ ['s'] by decide)]
  | arr xs =>
    show deCodeMessage (.str ('o' :: ':' :: btoa (utf8Encode (stringifyJson (.arr xs))))) = _
    simp only [deCodeMessage, show splitAtFirstColon ('o' :: ':' ::
        btoa (utf8Encode (stringifyJson (.arr xs)))) =
      some (['o'], btoa (utf8Encode (stringifyJson (.arr xs)))) from rfl,
      atob_btoa _ (utf8Encode_lt_256 _)]
    rw [if_true, utf8Decode_encode, jsonParse_stringify _ h,
      if_neg (show (['o'] : List Char) ≠ ['s'] by decide)]
  | obj fs =>
    show deCodeMessage (.str ('o' :: ':' :: btoa (utf8Encode (stringifyJson (.obj fs))))) = _
    simp only [deCodeMessage, show splitAtFirstColon ('o' :: ':' ::
        btoa (utf8Encode (stringifyJson (.obj fs)))) =
      some (['o'], btoa (utf8Encode (stringifyJson (.obj fs)))) from rfl,
      atob_btoa _ (utf8Encode_lt_256 _)]
    rw [if_true, utf8Decode_encode, jsonParse_stringify _ h,
      if_neg (show (['o'] : List Char) ≠ ['s'] by decide)]

-- ---------------------------------------------------------------------------
-- JS helpers: truthiness and defaulting
-- ---------------------------------------------------------------------------

/-- Truthiness of an optional string (`undefined` and `""` are falsy). -/
def strTruthy : Option String → Bool
  | some s => !s.isEmpty
  | none => false

/-- `o || d` for an optional string. -/
def jsOrStr (o : Option String) (d : String) : String :=
  match o with
  | some s => if s.isEmpty then d else s
  | none => d

/-- JS truthiness of a value. -/
def jsTruthy : JsValue → Bool
  | .undef => false
  | .null => false
  | .bool b => b
  | .num n => decide (n ≠ 0)
  | .str s => !s.isEmpty
  | .arr _ => true
  | .obj _ => true

def JsValue.isNull : JsValue → Bool
  | .null => true
  | _ => false

def JsValue.isUndef : JsValue → Bool
  | .undef => true
  | _ => false

-- ---------------------------------------------------------------------------
-- Bridge data model (`src/IframeBridge.ts`)
-- ---------------------------------------------------------------------------

/-- The reserved hub identity (`DEFAULT_MAIN_ID`). -/
def DEFAULT_MAIN_ID : String := "main"

/-- An `IframeMessage` envelope (all fields optional, as in the interface);
an absent `data` field is `undefined`. -/
structure Msg where
  type : Option String := none
  key : Option String := none
  sourceId : Option String := none
  targetId : Option String := none
  origin : Option String := none
  path : Option (List String) := none
  data : JsValue := .undef
  encoded : Option Bool := none
  timestamp : Option Nat := none

/-- A `MessageEventData` as pushed on the register queue: the spread of the
envelope plus the event's source window (windows are modelled by numeric
ids); only the fields `handleRegister` destructures are kept. -/
structure RegEventData where
  source : Option Nat := none
  sourceId : Option String := none
  origin : Option String := none
  type : Option String := none

/-- A routing-table record: `{ id, iframe, origin }`. -/
structure IframeEl where
  elId : Nat
  contentWindow : Option Nat
deriving DecidableEq, Repr

structure RegRecord where
  id : String
  iframe : Option IframeEl
  origin : String
deriving DecidableEq, Repr

/-- A native `message` event: payload, verified origin, source window. -/
structure MessageEvent where
  data : Option Msg := none
  origin : String := ""
  source : Option Nat := none

/-- The full state of one bridge instance, together with its browser
environment and a log of its observable effects. -/
structure World where
  -- identity and configuration (fixed at construction)
  iframeId : String
  origin : String
  roleIsMain : Bool
  originWhitelist : Option (List String)
  autoDestroy : Bool := false
  -- mutable state
  messageCallback : Bool := false
  gateResolved : Bool := false
  registeredIframe : List (String × RegRecord) := []
  messageQueue : List Msg := []
  registerQueue : List RegEventData := []
  isHandlingRegister : Bool := false
  isHandlingMessage : Bool := false
  destroyed : Bool := false
  -- environment
  dom : List IframeEl := []
  keyCounter : Nat := 0
  now : Nat := 0
  -- observable effects
  callbackCalls : List Msg := []
  parentPosts : List (Msg × String) := []
  iframePosts : List (Nat × Msg × String) := []
  warnings : List String := []
  errorLogs : List String := []

/-- `getMessageKey`: a fresh process-unique key (the source uses timestamp
plus randomness; the model determinizes with a counter). -/
def getMessageKey (w : World) : String × World :=
  ("msg_" ++ toString w.keyCounter, { w with keyCounter := w.keyCounter + 1 })

/-- `addMessagePath`: copy the path (an absent path becomes `[]`) and append
this endpoint's identity unless already present. -/
def addMessagePath (w : World) (path : Option (List String)) : List String :=
  let arr := match path with
    | some p => p
    | none => []
  if w.iframeId ∈ arr then arr else arr ++ [w.iframeId]

/-- `createMessage`: build a full envelope.  `raw` is the data with
`undefined` replaced by `null`; the `encoded` flag is taken from the caller
or inferred by probing `enCodeMessage`; un-encoded non-null data is encoded
(falling back to the raw value if encoding fails). -/
def createMessage (w : World) (message : Msg) (type : String) : Msg × World :=
  let raw := match message.data with
    | .undef => JsValue.null
    | d => d
  let encodedFlag : Bool := match message.encoded with
    | some b => b
    | none => jsTruthy (enCodeMessage raw)
  let fd : JsValue × Bool :=
    if encodedFlag = false ∧ raw.isNull = false ∧ raw.isUndef = false then
      match enCodeMessage raw with
      | .null => (raw, false)
      | enc => (enc, true)
    else (raw, encodedFlag)
  let path := addMessagePath w message.path
  let (key, w2) := getMessageKey w
  ({ type := some type,
     key := some key,
     sourceId := some (jsOrStr message.sourceId w.iframeId),
     targetId := some (jsOrStr message.targetId DEFAULT_MAIN_ID),
     origin := some w.origin,
     path := some path,
     data := fd.1,
     encoded := some fd.2,
     timestamp := some w.now }, w2)

/-- `bindingIframe`: scan the document's iframes for one whose content
window is the event's source window. -/
def bindingIframe (dom : List IframeEl) (sourceWindow : Option Nat) : Option IframeEl :=
  match sourceWindow with
  | none => none
  | some win =>
    match dom.find? (fun el => el.contentWindow = some win) with
    | some el => some el
    | none => none

/-- `sendMessage`: build the envelope unless one with a key was supplied,
reject self-targeted sends, extend the path and dispatch.  The hub delivers
locally or forwards through the routing table; a leaf posts to its parent
window — the source posts `message`, the original argument, not the built
envelope (`window.parent.postMessage(message, targetOrigin)`).  When the
supplied message carries a key, `built` in the source is the very same
object as `message`, so the in-place path extension is visible on the
posted object (rendered here by posting `built2` in that case); a keyless
partial is posted unmodified. -/
def sendMessage (w : World) (message : Msg) (type : String) : World :=
  let bw : Msg × World :=
    if strTruthy message.key then (message, w) else createMessage w message type
  let built := bw.1
  let w1 := bw.2
  if built.targetId = some w1.iframeId then
    { w1 with warnings := w1.warnings ++
        ["Attempt to send message to itself; use onMessage handler directly if needed"] }
  else
    let built2 := { built with path := some (addMessagePath w1 built.path) }
    if w1.roleIsMain then
      if built2.targetId = some DEFAULT_MAIN_ID then
        let decoded := { built2 with data := deCodeMessage built2.data }
        if w1.messageCallback then
          { w1 with callbackCalls := w1.callbackCalls ++ [decoded] }
        else w1
      else
        match built2.targetId with
        | some tid =>
          match w1.registeredIframe.lookup tid with
          | some rec =>
            match rec.iframe with
            | some el =>
              match el.contentWindow with
              | some win =>
                { w1 with iframePosts := w1.iframePosts ++ [(win, built2, rec.origin)] }
              | none =>
                { w1 with warnings := w1.warnings ++
                    ["Target iframe " ++ tid ++ " not found or not bound"] }
            | none =>
              { w1 with warnings := w1.warnings ++
                  ["Target iframe " ++ tid ++ " not found or not bound"] }
          | none =>
            { w1 with warnings := w1.warnings ++
                ["Target iframe " ++ tid ++ " not found or not bound"] }
        | none =>
          { w1 with warnings := w1.warnings ++ ["Target iframe not found or not bound"] }
    else
      let posted := if strTruthy message.key then built2 else message
      { w1 with parentPosts := w1.parentPosts ++ [(posted, w1.origin)] }

/-- The outcome the platform assigns to a single `postMessage` call: the
browser either completes it or raises synchronously (a `DataCloneError` for
a non-cloneable payload, a `SyntaxError` for a malformed target origin). -/
inductive PostResult where
  | ok : PostResult
  | throws (e : String) : PostResult

/-- Fallible rendering of `sendMessage`: identical except that the two
platform `postMessage` call sites consult the platform outcome `post`.  The
source wraps neither call in `try`/`catch` (the earlier draft class did),
so a platform exception at either site propagates to the caller of
`sendMessage`; one invocation reaches at most one such site. -/
def sendMessageT (w : World) (message : Msg) (type : String) (post : PostResult) :
    Except String World :=
  let bw : Msg × World :=
    if strTruthy message.key then (message, w) else createMessage w message type
  let built := bw.1
  let w1 := bw.2
  if built.targetId = some w1.iframeId then
    .ok { w1 with warnings := w1.warnings ++
        ["Attempt to send message to itself; use onMessage handler directly if needed"] }
  else
    let built2 := { built with path := some (addMessagePath w1 built.path) }
    if w1.roleIsMain then
      if built2.targetId = some DEFAULT_MAIN_ID then
        let decoded := { built2 with data := deCodeMessage built2.data }
        if w1.messageCallback then
          .ok { w1 with callbackCalls := w1.callbackCalls ++ [decoded] }
        else .ok w1
      else
        match built2.targetId with
        | some tid =>
          match w1.registeredIframe.lookup tid with
          | some rec =>
            match rec.iframe with
            | some el =>
              match el.contentWindow with
              | some win =>
                match post with
                | .ok =>
                  .ok { w1 with iframePosts := w1.iframePosts ++ [(win, built2, rec.origin)] }
                | .throws e => .error e
              | none =>
                .ok { w1 with warnings := w1.warnings ++
                    ["Target iframe " ++ tid ++ " not found or not bound"] }
            | none =>
              .ok { w1 with warnings := w1.warnings ++
                  ["Target iframe " ++ tid ++ " not found or not bound"] }
          | none =>
            .ok { w1 with warnings := w1.warnings ++
                ["Target iframe " ++ tid ++ " not found or not bound"] }
        | none =>
          .ok { w1 with warnings := w1.warnings ++
              ["Target iframe not found or not bound"] }
    else
      let posted := if strTruthy message.key then built2 else message
      match post with
      | .ok => .ok { w1 with parentPosts := w1.parentPosts ++ [(posted, w1.origin)] }
      | .throws e => .error e

/-- The argument passed to `onMessage`: either a function or some other
value. -/
inductive CbArg where
  | fn : CbArg
  | other (v : JsValue) : CbArg

/-- `onMessage`: throws unless given a function; installs the subscriber and
resolves the readiness gate. -/
def onMessage (w : World) (callback : CbArg) : Except String World :=
  match callback with
  | .other _ => .error "onMessage callback must be a function"
  | .fn => .ok { w with messageCallback := true, gateResolved := true }

/-- `destroy`: idempotent teardown — detach listeners (modelled by the
`destroyed` flag), clear the queues, the routing table and the subscriber,
and resolve a still-pending readiness gate. -/
def destroy (w : World) : World :=
  if w.destroyed then w
  else
    { w with destroyed := true,
             messageCallback := false,
             messageQueue := [],
             registerQueue := [],
             registeredIframe := [],
             gateResolved := true }

/-- `handleRegister`: validate one registration request.  Rejections become
`Except.error` (the caller logs them): missing origin or source identity,
origin outside a configured allow-list, or an identity already registered.
On success the record is created (binding the source window to an iframe
element) and a `success`-payload acknowledgment is built and delivered —
locally when the registrant is the hub itself (the readiness gate is raced
against an already-resolved promise, so it never actually waits), else via
`sendMessage`. -/
def handleRegister (w : World) (message : Option RegEventData) : Except String World :=
  match message with
  | none => .error "Missing registration message"
  | some m =>
    if strTruthy m.origin = false ∨ strTruthy m.sourceId = false then
      .error "Invalid registration payload"
    else
      let origin := m.origin.getD ""
      let sourceId := m.sourceId.getD ""
      match w.originWhitelist with
      | some wl =>
        if origin ∈ wl then
          handleRegisterAccept w m origin sourceId
        else .error ("Origin " ++ origin ++ " is not in the whitelist.")
      | none => handleRegisterAccept w m origin sourceId
where
  handleRegisterAccept (w : World) (m : RegEventData) (origin sourceId : String) :
      Except String World :=
    match w.registeredIframe.lookup sourceId with
    | none =>
      let bound := bindingIframe w.dom m.source
      let w1 := { w with registeredIframe :=
        w.registeredIframe ++ [(sourceId, { id := sourceId, iframe := bound, origin := origin })] }
      let sm := createMessage w1 { data := .str "success".data, targetId := some sourceId }
        (m.type.getD "register")
      let w2 := sm.2
      if sourceId = w2.iframeId then
        if w2.messageCallback then
          .ok { w2 with callbackCalls := w2.callbackCalls ++ [sm.1] }
        else .ok w2
      else .ok (sendMessage w2 sm.1 (m.type.getD "register"))
    | some _ => .error ("Iframe " ++ sourceId ++ " already registered.")

/-- One `handleRegister` call with the rejection caught and logged, as in
`registerIframe`'s loop. -/
def handleRegisterStep (w : World) (m : RegEventData) : World :=
  match handleRegister w (some m) with
  | .ok w2 => w2
  | .error e => { w with errorLogs := w.errorLogs ++ ["Iframe registration failed: " ++ e] }

def processRegQueue : World → List RegEventData → World
  | w, [] => w
  | w, m :: ms => processRegQueue (handleRegisterStep w m) ms

/-- `registerIframe`: hub-only, guarded against re-entrance; drains either
the supplied message or the whole register queue. -/
def registerIframe (w : World) (message : Option RegEventData) : World :=
  if w.roleIsMain = false then
    { w with errorLogs := w.errorLogs ++ ["Only main page can handle iframe registration"] }
  else if w.isHandlingRegister then w
  else
    let w1 := { w with isHandlingRegister := true }
    let qw : List RegEventData × World :=
      match message with
      | some m => ([m], w1)
      | none => (w1.registerQueue, { w1 with registerQueue := [] })
    let w2 := processRegQueue qw.2 qw.1
    { w2 with isHandlingRegister := false }

/-- The body of the hub's message-queue drain loop; the fuel is the queue
length (processing a message never enqueues, so the queue shrinks each
iteration). -/
def drainLoop : Nat → World → World
  | 0, w => w
  | f + 1, w =>
    match w.messageQueue with
    | [] => w
    | msg :: rest =>
      let w1 := { w with messageQueue := rest }
      let w2 :=
        if msg.targetId = some w1.iframeId then
          let decoded := { msg with data := deCodeMessage msg.data }
          if w1.messageCallback then
            { w1 with callbackCalls := w1.callbackCalls ++ [decoded] }
          else w1
        else sendMessage w1 msg (msg.type.getD "message")
      drainLoop f w2

/-- `handleMessage`: a leaf processes the supplied envelope directly
(extend path, decode, invoke the subscriber if installed — the readiness
gate is not awaited); the hub drains its queue under the non-re-entrance
guard. -/
def handleMessage (w : World) (message : Option Msg) : World :=
  if w.roleIsMain = false then
    match message with
    | none => w
    | some m =>
      let m2 := { m with path := some (addMessagePath w m.path) }
      let decoded := { m2 with data := deCodeMessage m2.data }
      if w.messageCallback then
        { w with callbackCalls := w.callbackCalls ++ [decoded] }
      else w
  else if w.isHandlingMessage then w
  else
    let w1 := { w with isHandlingMessage := true }
    let w2 := drainLoop w1.messageQueue.length w1
    { w2 with isHandlingMessage := false }

/-- `receiveMessage` (hub): classify the event.  A register event is pushed
on the register queue (keeping the source window) and the register drain is
scheduled; a message event is pushed on the message queue twice — the
source contains two consecutive `this.messageQueue.push(event.data)` calls —
and the message drain is scheduled on a microtask (which in this
single-threaded model runs before the next event). -/
def receiveMessage (w : World) (e : MessageEvent) (d : Msg) : World :=
  if d.type = some "register" then
    let w1 := { w with registerQueue := w.registerQueue ++
      [{ source := e.source, sourceId := d.sourceId, origin := d.origin, type := d.type }] }
    registerIframe w1 none
  else if d.type = some "message" then
    let w1 := { w with messageQueue := w.messageQueue ++ [d, d] }
    handleMessage w1 none
  else
    { w with warnings := w.warnings ++ ["Unknown message type received"] }

/-- `_handleWindowMessageImpl`: ignore everything after teardown and events
without a truthy `data.type`; dispatch to the hub or leaf pipeline. -/
def handleWindowMessage (w : World) (e : MessageEvent) : World :=
  if w.destroyed then w
  else
    match e.data with
    | none => w
    | some d =>
      if strTruthy d.type = false then w
      else if w.roleIsMain then receiveMessage w e d
      else handleMessage w (some d)

/-- Constructor options (`IframeBridgeOptions`). -/
structure BridgeOptions where
  iframeId : Option String := none
  origin : Option String := none
  originWhitelist : Option (List String) := none
  type : Option String := none
  autoDestroy : Bool := false

/-- The browser environment the constructor reads. -/
structure BrowserEnv where
  locationOrigin : String
  windowTopIsSelf : Bool := true
  dom : List IframeEl := []
  now : Nat := 0

/-- `isMainPage` as resolved at construction: an explicit role wins, else
whether the current context is top-level. -/
def resolveRole (opts : BridgeOptions) (env : BrowserEnv) : Bool :=
  if opts.type = some "main" then true
  else if opts.type = some "iframe" then false
  else env.windowTopIsSelf

/-- `init`: the hub registers itself through the registration pipeline; a
leaf builds a register envelope targeted at the hub and sends it. -/
def init (w : World) : World :=
  if w.roleIsMain then
    let rm := createMessage w { sourceId := some DEFAULT_MAIN_ID } "register"
    let ev : RegEventData :=
      { source := none, sourceId := rm.1.sourceId, origin := rm.1.origin, type := rm.1.type }
    registerIframe rm.2 (some ev)
  else
    let rm := createMessage w { targetId := some DEFAULT_MAIN_ID } "register"
    sendMessage rm.2 rm.1 "message"

/-- The constructor: resolve origin and role, force the hub's identity to
the reserved id, configure the allow-list (prepending the endpoint's own
origin when one is given), install the listener (modelled by the
`destroyed` flag starting false) and run `init`. -/
def mkBridge (opts : BridgeOptions) (env : BrowserEnv) : World :=
  let origin := jsOrStr opts.origin env.locationOrigin
  let isMain := resolveRole opts env
  let iframeId := if isMain then DEFAULT_MAIN_ID else jsOrStr opts.iframeId DEFAULT_MAIN_ID
  let wl : Option (List String) :=
    match opts.originWhitelist with
    | some l => if 0 < l.length then some (origin :: l) else none
    | none => none
  init { iframeId := iframeId, origin := origin, roleIsMain := isMain,
         originWhitelist := wl, autoDestroy := opts.autoDestroy,
         dom := env.dom, now := env.now }

-- ---------------------------------------------------------------------------
-- Invariance helper lemmas
-- ---------------------------------------------------------------------------

theorem lookup_append_right {α β : Type} [BEq α] :
    ∀ (l1 l2 : List (α × β)) (a : α), l1.lookup a = none →
      (l1 ++ l2).lookup a = l2.lookup a
  | [], _, _, _ => rfl
  | (k, v) :: t, l2, a, h => by
    simp only [List.lookup] at h ⊢
    match hb : a == k with
    | true =>
      rw [hb] at h
      exact Option.noConfusion h
    | false =>
      rw [hb] at h
      exact lookup_append_right t l2 a h

/-- `createMessage` only bumps the key counter of the world. -/
theorem createMessage_world (w : World) (m : Msg) (t : String) :
    (createMessage w m t).2 = { w with keyCounter := w.keyCounter + 1 } := rfl

/-- `sendMessage` never changes the routing table. -/
theorem sendMessage_registeredIframe (w : World) (m : Msg) (t : String) :
    (sendMessage w m t).registeredIframe = w.registeredIframe := by
  unfold sendMessage
  dsimp only
  repeat' split
  all_goals rfl

-- ---------------------------------------------------------------------------
-- Concrete scenarios used by the claim theorems
-- ---------------------------------------------------------------------------

/-- Environment of the hosting page. -/
def hubEnv : BrowserEnv := { locationOrigin := "https://host" }

/-- A hub endpoint as the test suite constructs it. -/
def hubOpts : BridgeOptions := { type := some "main" }

/-- A freshly constructed hub, before any subscriber is installed. -/
def hubWorld : World := mkBridge hubOpts hubEnv

/-- The hub after `onMessage` installed a subscriber. -/
def hubSubscribed : World :=
  match onMessage hubWorld .fn with
  | .ok w => w
  | .error _ => hubWorld

/-- The payload object of the FIFO scenario. -/
def xPayload (i : Int) : JsValue := JsValue.obj [("x".data, .num i)]

/-- A message-kind envelope carrying the encoded payload, addressed to the
hub, as a leaf would emit it. -/
def xEnvelope (i : Int) : Msg :=
  { type := some "message", key := some ("k" ++ toString i), sourceId := some "child",
    targetId := some DEFAULT_MAIN_ID, origin := some "https://host",
    path := some ["child"], data := enCodeMessage (xPayload i), timestamp := some 0 }

def xEvent (i : Int) : MessageEvent :=
  { data := some (xEnvelope i), origin := "https://host" }

/-- The hub after the two envelopes `(x:1)` then `(x:2)` were delivered. -/
def hubAfterTwo : World :=
  handleWindowMessage (handleWindowMessage hubSubscribed (xEvent 1)) (xEvent 2)

def leafEnv : BrowserEnv :=
  { locationOrigin := "https://leafA", windowTopIsSelf := false }

def leafOpts : BridgeOptions :=
  { type := some "iframe", iframeId := some "A", origin := some "https://leafA" }

/-- A freshly constructed leaf endpoint with identity `A`. -/
def leafWorld : World := mkBridge leafOpts leafEnv

/-- The partial message a caller hands to `sendMessage` on the leaf. -/
def leafPartial : Msg := { targetId := some DEFAULT_MAIN_ID, data := .str "hi".data }

def leafAfterSend : World := sendMessage leafWorld leafPartial "message"

-- ---------------------------------------------------------------------------
-- Claim theorems
-- ---------------------------------------------------------------------------

/-- **C1** (evaluation at the failing input): delivering the two
message-kind envelopes with payloads `(x:1)` then `(x:2)` to a subscribed
hub invokes the subscriber FOUR times, with each decoded payload appearing
twice — `receiveMessage` pushes each event onto the message queue twice —
contradicting the claimed exactly-one-call-per-message FIFO behavior
(which the repository's own serial-processing test also expects). -/
theorem C1_double_enqueue_evaluation :
    hubAfterTwo.callbackCalls.map Msg.data =
      [xPayload 1, xPayload 1, xPayload 2, xPayload 2] := rfl

/-- **C2**: the default codec round-trips every JSON-representable value —
any well-formed string (including multi-byte text) and any structured value
of the JSON model — exactly: `deCodeMessage (enCodeMessage v) = v`. -/
theorem C2_default_codec_round_trip (v : JsValue) (h : jsonRep v = true) :
    deCodeMessage (enCodeMessage v) = v :=
  deCodeMessage_enCodeMessage v h

theorem C2_default_codec_round_trip_witness :
    jsonRep (JsValue.obj [("t".data, .str "你好🌏".data), ("n".data, .num (-42))]) = true ∧
    deCodeMessage (enCodeMessage
        (JsValue.obj [("t".data, .str "你好🌏".data), ("n".data, .num (-42))])) =
      JsValue.obj [("t".data, .str "你好🌏".data), ("n".data, .num (-42))] :=
  ⟨by decide, C2_default_codec_round_trip _ (by decide)⟩

/-- **C3** (evaluation at the failing input): a leaf send of a partial
message posts the ORIGINAL partial to the parent window — not the built
envelope: the posted value has no key, no type, no sourceId, no timestamp,
and no path (so the leaf's identity is absent), because the source posts
`message` where the commented-out line above it posts `built`. -/
theorem C3_leaf_posts_partial_evaluation :
    leafAfterSend.parentPosts = leafWorld.parentPosts ++ [(leafPartial, "https://leafA")] ∧
    leafPartial.key = none ∧ leafPartial.type = none ∧ leafPartial.sourceId = none ∧
    leafPartial.path = none ∧ leafPartial.timestamp = none :=
  ⟨rfl, rfl, rfl, rfl, rfl, rfl⟩

/-- **C4** (evaluation at the failing input): the readiness gate is never
awaited.  The hub registers itself at construction, but the registration
acknowledgment is dropped because no subscriber is installed; subscribing
afterwards delivers nothing.  Likewise a message drained before `onMessage`
is removed from the queue and lost: after a late subscribe the callback log
is still empty and the queue is empty. -/
theorem C4_late_subscriber_loses_deliveries :
    hubWorld.registeredIframe.map Prod.fst = [DEFAULT_MAIN_ID] ∧
    hubSubscribed.callbackCalls = [] ∧
    (match onMessage (handleWindowMessage hubWorld (xEvent 1)) .fn with
      | .ok w => w.callbackCalls = [] ∧ w.messageQueue = []
      | .error _ => False) :=
  ⟨rfl, rfl, rfl, rfl⟩

/-- **C5** (counterexample): a leaf `sendMessage` with no target identity is
NOT a no-op — an envelope is built (the key counter advances) and a value is
posted to the parent window. -/
theorem C5_missing_target_counterexample :
    (sendMessage leafWorld { data := JsValue.str "hi".data } "message").parentPosts.length =
      leafWorld.parentPosts.length + 1 ∧
    (sendMessage leafWorld { data := JsValue.str "hi".data } "message").keyCounter =
      leafWorld.keyCounter + 1 :=
  ⟨rfl, rfl⟩

/-- **C5** (amended): when `sendMessage` is called with a partial message
that has no key and no target identity, the built envelope's target defaults
to the hub identity; on the hub (whose identity is the reserved id) the send
is then rejected as self-targeted — an envelope is built and a warning
logged, but nothing is posted and no subscriber invoked — while a leaf
(whose identity differs from the reserved id) posts the original partial to
its parent window. -/
theorem C5_missing_target_amended (w : World) (m : Msg) (t : String)
    (hk : strTruthy m.key = false) (ht : m.targetId = none) :
    (w.roleIsMain = true → w.iframeId = DEFAULT_MAIN_ID →
      (sendMessage w m t).keyCounter = w.keyCounter + 1 ∧
      (sendMessage w m t).warnings = w.warnings ++
        ["Attempt to send message to itself; use onMessage handler directly if needed"] ∧
      (sendMessage w m t).parentPosts = w.parentPosts ∧
      (sendMessage w m t).iframePosts = w.iframePosts ∧
      (sendMessage w m t).callbackCalls = w.callbackCalls) ∧
    (w.roleIsMain = false → w.iframeId ≠ DEFAULT_MAIN_ID →
      (sendMessage w m t).keyCounter = w.keyCounter + 1 ∧
      (sendMessage w m t).parentPosts = w.parentPosts ++ [(m, w.origin)] ∧
      (sendMessage w m t).iframePosts = w.iframePosts ∧
      (sendMessage w m t).callbackCalls = w.callbackCalls) := by
  have hbuilt : (createMessage w m t).1.targetId = some DEFAULT_MAIN_ID := by
    simp [createMessage, ht, jsOrStr]
  constructor
  · intro hmain hid
    unfold sendMessage
    rw [hk]
    simp only [Bool.false_eq_true, if_false]
    rw [createMessage_world]
    dsimp only
    rw [hbuilt, hid]
    simp only [reduceIte]
    exact ⟨trivial, trivial, trivial, trivial, trivial⟩
  · intro hleaf hne
    unfold sendMessage
    rw [hk]
    simp only [Bool.false_eq_true, if_false]
    rw [createMessage_world]
    dsimp only
    rw [hbuilt]
    rw [if_neg (fun hcontra => hne (Option.some.inj hcontra).symm)]
    rw [hleaf]
    simp only [Bool.false_eq_true, if_false]
    exact ⟨trivial, trivial, trivial, trivial⟩

theorem C5_missing_target_amended_witness :
    (sendMessage leafWorld { data := JsValue.str "hi".data } "message").keyCounter =
        leafWorld.keyCounter + 1 ∧
    (sendMessage leafWorld { data := JsValue.str "hi".data } "message").parentPosts =
        leafWorld.parentPosts ++ [({ data := JsValue.str "hi".data }, leafWorld.origin)] ∧
    (sendMessage leafWorld { data := JsValue.str "hi".data } "message").iframePosts =
        leafWorld.iframePosts ∧
    (sendMessage leafWorld { data := JsValue.str "hi".data } "message").callbackCalls =
        leafWorld.callbackCalls :=
  (C5_missing_target_amended leafWorld { data := JsValue.str "hi".data } "message"
    rfl rfl).2 rfl (by decide)

/-- **C6** (counterexample): the subscribe operation DOES throw across the
public API surface — `onMessage` with a non-function callback raises. -/
theorem C6_subscribe_throws_counterexample :
    onMessage hubSubscribed (.other .null) =
      .error "onMessage callback must be a function" := rfl

/-- **C6** (amended): neither public operation throws anything of its own
beyond the callback validation.  `onMessage` throws exactly when its
argument is not a function; with a function it always succeeds, installing
the subscriber and resolving the readiness gate.  `sendMessage` neither
raises nor catches an exception itself: whenever the platform `postMessage`
call completes (or no post site is reached) the fallible model agrees with
the total effect-log model, and whenever the platform call throws, the
exception propagates unwrapped to the caller (unless no post site was
reached, in which case the send again completes normally). -/
theorem C6_throw_characterization (w : World) (m : Msg) (t e : String) (v : JsValue) :
    sendMessageT w m t .ok = .ok (sendMessage w m t) ∧
    (sendMessageT w m t (.throws e) = .error e ∨
      sendMessageT w m t (.throws e) = .ok (sendMessage w m t)) ∧
    onMessage w (.other v) = .error "onMessage callback must be a function" ∧
    onMessage w .fn = .ok { w with messageCallback := true, gateResolved := true } := by
  refine ⟨?_, ?_, rfl, rfl⟩
  · unfold sendMessageT sendMessage
    dsimp only
    repeat' split
    all_goals rfl
  · unfold sendMessageT sendMessage
    dsimp only
    repeat' split
    all_goals first
      | exact Or.inl rfl
      | exact Or.inr rfl

/-- **C9**: teardown is idempotent and inert — after `destroy`, any
native-channel event leaves the state completely unchanged (so no
subscriber invocation and no state change), and a second `destroy` is a
no-op. -/
theorem C9_destroy_idempotent_inert (w : World) (e : MessageEvent) :
    handleWindowMessage (destroy w) e = destroy w ∧
    destroy (destroy w) = destroy w := by
  have hd : (destroy w).destroyed = true := by
    unfold destroy
    by_cases h : w.destroyed
    · rw [if_pos h]
      exact h
    · rw [if_neg h]
  constructor
  · unfold handleWindowMessage
    rw [hd]
    simp
  · generalize hg : destroy w = w2
    rw [hg] at hd
    unfold destroy
    rw [if_pos hd]

/-- **C10** (counterexample): the round-trip equation HOLDS at `null` — the
composite `deCodeMessage (enCodeMessage null)` returns `null`, which equals
the input, so "null payloads do not round-trip" is false for `null`. -/
theorem C10_null_round_trips_counterexample :
    deCodeMessage (enCodeMessage JsValue.null) = JsValue.null := rfl

/-- **C10** (amended): `deCodeMessage` returns `null` for every non-string
input, and `enCodeMessage` returns `null` for `null` or `undefined`;
consequently `undefined` does not round-trip (the composite yields `null`,
a different value), while `null` maps degenerately to itself. -/
theorem C10_non_string_decode_amended (b : Bool) (n : Int) (xs : List JsValue)
    (fs : List (List Char × JsValue)) :
    deCodeMessage JsValue.undef = JsValue.null ∧
    deCodeMessage JsValue.null = JsValue.null ∧
    deCodeMessage (JsValue.bool b) = JsValue.null ∧
    deCodeMessage (JsValue.num n) = JsValue.null ∧
    deCodeMessage (JsValue.arr xs) = JsValue.null ∧
    deCodeMessage (JsValue.obj fs) = JsValue.null ∧
    enCodeMessage JsValue.null = JsValue.null ∧
    enCodeMessage JsValue.undef = JsValue.null ∧
    deCodeMessage (enCodeMessage JsValue.undef) = JsValue.null ∧
    deCodeMessage (enCodeMessage JsValue.undef) ≠ JsValue.undef := by
  refine ⟨rfl, rfl, rfl, rfl, rfl, rfl, rfl, rfl, rfl, ?_⟩
  intro h
  exact JsValue.noConfusion h

theorem strTruthy_some (o : String) (h : o ≠ "") : strTruthy (some o) = true := by
  simp only [strTruthy, Bool.not_eq_true']
  rw [Bool.eq_false_iff]
  intro he
  exact h ((String.isEmpty_iff o).mp he)

/-- **C8**: a second registration attempt for an identity already present in
the routing table fails with the already-registered condition and leaves the
whole state — in particular the existing record and the routing table —
completely unchanged except for the error log. -/
theorem C8_duplicate_registration_rejected (w : World) (m : RegEventData) (o sid : String)
    (rec : RegRecord) (ho : m.origin = some o) (hs : m.sourceId = some sid)
    (hto : o ≠ "") (hts : sid ≠ "")
    (hwl : match w.originWhitelist with | some wl => o ∈ wl | none => True)
    (hdup : w.registeredIframe.lookup sid = some rec) :
    handleRegisterStep w m =
      { w with
          errorLogs := w.errorLogs ++
            ["Iframe registration failed: Iframe " ++ sid ++ " already registered."] } := by
  have haccept : handleRegister.handleRegisterAccept w m o sid =
      .error ("Iframe " ++ sid ++ " already registered.") := by
    unfold handleRegister.handleRegisterAccept
    rw [hdup]
  have hreg : handleRegister w (some m) =
      .error ("Iframe " ++ sid ++ " already registered.") := by
    unfold handleRegister
    dsimp only
    rw [if_neg (by
      rw [ho, hs, strTruthy_some o hto, strTruthy_some sid hts]
      simp)]
    rw [ho, hs]
    dsimp only [Option.getD]
    cases hw : w.originWhitelist with
    | some wl =>
      rw [hw] at hwl
      dsimp only at hwl ⊢
      rw [if_pos hwl]
      exact haccept
    | none => exact haccept
  unfold handleRegisterStep
  rw [hreg]
  rfl

theorem C8_duplicate_registration_rejected_witness :
    handleRegisterStep hubWorld
        { origin := some "https://host", sourceId := some DEFAULT_MAIN_ID } =
      { hubWorld with
          errorLogs := hubWorld.errorLogs ++
            ["Iframe registration failed: Iframe " ++ DEFAULT_MAIN_ID ++
              " already registered."] } :=
  C8_duplicate_registration_rejected hubWorld
    { origin := some "https://host", sourceId := some DEFAULT_MAIN_ID }
    "https://host" DEFAULT_MAIN_ID
    { id := DEFAULT_MAIN_ID, iframe := none, origin := "https://host" }
    rfl rfl (by decide) (by decide) (by trivial) rfl

/-- A fresh, validated registration appends exactly one record to the
routing table (shared by the acceptance parts of the allow-list claim). -/
theorem handleRegisterStep_accept_table (w : World) (m : RegEventData) (o sid : String)
    (ho : m.origin = some o) (hs : m.sourceId = some sid)
    (hto : o ≠ "") (hts : sid ≠ "")
    (hwl : match w.originWhitelist with | some wl => o ∈ wl | none => True)
    (hfresh : w.registeredIframe.lookup sid = none) :
    (handleRegisterStep w m).registeredIframe =
      w.registeredIframe ++
        [(sid, { id := sid, iframe := bindingIframe w.dom m.source, origin := o })] := by
  have haccept : ∀ w2, handleRegister.handleRegisterAccept w m o sid = .ok w2 →
      w2.registeredIframe = w.registeredIframe ++
        [(sid, { id := sid, iframe := bindingIframe w.dom m.source, origin := o })] := by
    intro w2 h
    unfold handleRegister.handleRegisterAccept at h
    rw [hfresh] at h
    dsimp only at h
    split at h
    · split at h
      · injection h with h2
        subst h2
        rfl
      · injection h with h2
        subst h2
        rfl
    · injection h with h2
      subst h2
      rw [sendMessage_registeredIframe]
      rfl
  have hisok : ∃ w2, handleRegister.handleRegisterAccept w m o sid = .ok w2 := by
    unfold handleRegister.handleRegisterAccept
    rw [hfresh]
    dsimp only
    split
    · split
      · exact ⟨_, rfl⟩
      · exact ⟨_, rfl⟩
    · exact ⟨_, rfl⟩
  obtain ⟨w2, hok⟩ := hisok
  have hreg : handleRegister w (some m) = .ok w2 := by
    unfold handleRegister
    dsimp only
    rw [if_neg (by
      rw [ho, hs, strTruthy_some o hto, strTruthy_some sid hts]
      simp)]
    rw [ho, hs]
    dsimp only [Option.getD]
    cases hw : w.originWhitelist with
    | some wl =>
      rw [hw] at hwl
      dsimp only at hwl ⊢
      rw [if_pos hwl]
      exact hok
    | none => exact hok
  unfold handleRegisterStep
  rw [hreg]
  exact haccept w2 hok

/-- **C7**: allow-list enforcement.  With a configured allow-list (which by
construction starts with the hub's own origin), a registration whose origin
is outside the list leaves the routing table unchanged, while a
registration whose origin is in the list (valid, fresh identity) creates the
record; without an allow-list, any origin is accepted. -/
theorem C7_allowlist_enforcement (w : World) (l : List String) (m : RegEventData)
    (o sid : String) (ho : m.origin = some o) (hs : m.sourceId = some sid)
    (hto : o ≠ "") (hts : sid ≠ "") :
    (w.originWhitelist = some (w.origin :: l) → o ∉ (w.origin :: l) →
      (handleRegisterStep w m).registeredIframe = w.registeredIframe) ∧
    (w.originWhitelist = some (w.origin :: l) → o ∈ (w.origin :: l) →
      w.registeredIframe.lookup sid = none →
      (handleRegisterStep w m).registeredIframe.lookup sid =
        some { id := sid, iframe := bindingIframe w.dom m.source, origin := o }) ∧
    (w.originWhitelist = none → w.registeredIframe.lookup sid = none →
      (handleRegisterStep w m).registeredIframe.lookup sid =
        some { id := sid, iframe := bindingIframe w.dom m.source, origin := o }) := by
  refine ⟨?_, ?_, ?_⟩
  · intro hwl hout
    have hreg : handleRegister w (some m) =
        .error ("Origin " ++ o ++ " is not in the whitelist.") := by
      unfold handleRegister
      dsimp only
      rw [if_neg (by
        rw [ho, hs, strTruthy_some o hto, strTruthy_some sid hts]
        simp)]
      rw [ho, hs]
      dsimp only [Option.getD]
      rw [hwl]
      dsimp only
      rw [if_neg hout]
    unfold handleRegisterStep
    rw [hreg]
  · intro hwl hin hfresh
    rw [handleRegisterStep_accept_table w m o sid ho hs hto hts (by rw [hwl]; exact hin) hfresh]
    rw [lookup_append_right _ _ _ hfresh]
    simp [List.lookup]
  · intro hwl hfresh
    rw [handleRegisterStep_accept_table w m o sid ho hs hto hts (by rw [hwl]; trivial) hfresh]
    rw [lookup_append_right _ _ _ hfresh]
    simp [List.lookup]

/-- A hub constructed with the allow-list `["https://good"]`. -/
def hubAllow : World :=
  mkBridge { type := some "main", originWhitelist := some ["https://good"] } hubEnv

theorem C7_allowlist_enforcement_witness :
    (handleRegisterStep hubAllow
        { origin := some "https://good", sourceId := some "B" }).registeredIframe.lookup "B" =
      some { id := "B", iframe := none, origin := "https://good" } ∧
    (handleRegisterStep hubAllow
        { origin := some "https://bad", sourceId := some "C" }).registeredIframe =
      hubAllow.registeredIframe :=
  ⟨(C7_allowlist_enforcement hubAllow ["https://good"]
      { origin := some "https://good", sourceId := some "B" } "https://good" "B"
      rfl rfl (by decide) (by decide)).2.1 rfl (by decide) rfl,
   (C7_allowlist_enforcement hubAllow ["https://good"]
      { origin := some "https://bad", sourceId := some "C" } "https://bad" "C"
      rfl rfl (by decide) (by decide)).1 rfl (by decide)⟩
